import Mathlib

/-!
Shallow embedding of the scored-ranking and memoization-cache engine of the
repository (files `src/redis/rankings.py`, `src/redis/cache.py`,
`src/redis/database.py`).

The Redis backing store is modelled as a single keyspace mapping string keys
to typed values (plain strings, business hashes, sorted sets, lists) plus a
TTL table.  Python floats are modelled as exact rationals; `math.log10` is an
abstract parameter `lg` of the scoring function (its value is never inspected
by the code); timestamp fields (`last_updated`, `last_review`,
`review_count_updated`) carry no ranking information and are not modelled.
Byte-wise string comparison (Redis member order) and the charwise pieces of
`str.lower`/`str.replace` are modelled structurally over character lists so
that every definition evaluates on concrete inputs.
-/

/-- Byte-wise (codepoint-wise) lexicographic comparison of character lists,
modelling how Redis orders members with equal scores (memcmp). -/
def charsLe : List Char → List Char → Bool
  | [], _ => true
  | _ :: _, [] => false
  | a :: as, b :: bs =>
    if a.toNat < b.toNat then true
    else if b.toNat < a.toNat then false
    else charsLe as bs

/-- Lexicographic order on strings via `charsLe`. -/
def strLe (a b : String) : Bool := charsLe a.data b.data

/-- Redis KEYS glob matching, restricted to the `*` wildcard (the only glob
character the repository ever puts in a pattern); all other characters are
literal. -/
def globChars : List Char → List Char → Bool
  | [], [] => true
  | [], _ :: _ => false
  | p :: ps, [] => if p = '*' then globChars ps [] else false
  | p :: ps, c :: cs =>
    if p = '*' then globChars ps (c :: cs) || globChars (p :: ps) cs
    else if p = c then globChars ps cs else false
termination_by p s => p.length + s.length

/-- Glob matching on strings. -/
def globMatch (pat s : String) : Bool := globChars pat.data s.data

/-- `s.lower()` (charwise, as Python does for the ASCII city/category tags). -/
def lowerStr (s : String) : String := ⟨s.data.map Char.toLower⟩

/-- `s.replace(c, c')` for single characters. -/
def replaceChar (c₁ c₂ : Char) (s : String) : String :=
  ⟨s.data.map (fun c => if c = c₁ then c₂ else c)⟩

/-- `s.replace('&', 'and')`. -/
def replaceAmp (s : String) : String :=
  ⟨(s.data.map (fun c => if c = '&' then ['a', 'n', 'd'] else [c])).flatten⟩

/-- `location.lower().replace(' ', '_')` — the city-tag normalisation. -/
def normTag (s : String) : String := replaceChar ' ' '_' (lowerStr s)

/-- `category.lower().replace(' ', '_').replace('&', 'and')`. -/
def normCat (s : String) : String := replaceAmp (normTag s)

/-- `cache_key.split(':')` over characters. -/
def splitColon : List Char → List (List Char)
  | [] => [[]]
  | c :: cs =>
    let r := splitColon cs
    if c = ':' then [] :: r
    else
      match r with
      | [] => [[c]]
      | h :: t => (c :: h) :: t

/-- `cache_key.split(':')[1] if ':' in cache_key else 'unknown'`
(`RedisCache._record_cache_hit` / `_record_cache_miss`). -/
def cacheTypeOf (cache_key : String) : String :=
  match splitColon cache_key.data with
  | _ :: t :: _ => ⟨t⟩
  | _ => "unknown"

/-- Python `int(...)` on a rational: truncation toward zero. -/
def truncInt (q : Rat) : Int := if q < 0 then ⌈q⌉ else ⌊q⌋

/-- Round-half-to-even to an integer, the rounding Python's `round` uses. -/
def roundHalfEven (x : Rat) : Int :=
  let f : Int := ⌊x⌋
  if x - f < 1 / 2 then f
  else if 1 / 2 < x - f then f + 1
  else if f % 2 = 0 then f else f + 1

/-- Python `round(x, 2)`. -/
def round2 (x : Rat) : Rat := (roundHalfEven (x * 100) : Rat) / 100

/-- Association-list lookup for the keyspace. -/
def kvGet {α : Type} (m : List (String × α)) (k : String) : Option α :=
  match m with
  | [] => none
  | (k', v) :: t => if k' = k then some v else kvGet t k

/-- Association-list update (replace in place, else append at the front of the
matching position; absent keys are appended at the tail). -/
def kvSet {α : Type} (m : List (String × α)) (k : String) (v : α) :
    List (String × α) :=
  match m with
  | [] => [(k, v)]
  | (k', v') :: t => if k' = k then (k, v) :: t else (k', v') :: kvSet t k v

/-- Remove every key in `ks` from the association list (Redis DELETE). -/
def kvDel {α : Type} (m : List (String × α)) (ks : List String) :
    List (String × α) :=
  match m with
  | [] => []
  | (k', v) :: t => if k' ∈ ks then kvDel t ks else (k', v) :: kvDel t ks

/-- A JSON-serialisable value.  The cache logic never inspects the structure
of what it stores, so values are modelled as atoms; compound documents can be
represented through their serialised string form. -/
inductive Json where
  | null : Json
  | jbool : Bool → Json
  | num : Rat → Json
  | jstr : String → Json
deriving DecidableEq, Repr

/-- A stored string payload: either a well-formed serialisation of a JSON
value (what `json.dumps` produces) or a corrupted blob that `json.loads`
rejects. -/
inductive Payload where
  | ok : Json → Payload
  | corrupt : String → Payload
deriving DecidableEq, Repr

/-- `json.loads` on a stored payload. -/
def decodePayload : Payload → Option Json
  | .ok v => some v
  | .corrupt _ => none

/-- The business hash at key `business:{id}`.  Fields absent from the stored
hash are represented by the Python-side `.get` defaults (empty string / 0 /
empty list); the timestamp fields are not modelled. -/
structure Biz where
  name : String := ""
  city : String := ""
  bstate : String := ""
  stars : Rat := 0
  review_count : Nat := 0
  is_open : Int := 0
  categories : List String := []
deriving DecidableEq, Repr

/-- A value in the Redis keyspace. -/
inductive RVal where
  | str : Payload → RVal
  | hash : Biz → RVal
  | zset : List (String × Rat) → RVal
  | list : List Rat → RVal
deriving DecidableEq, Repr

/-- The modelled Redis state: one keyspace, the TTL table, and a count of
`EXPIRE` calls (instrumentation used to state the trending-window claim). -/
structure RedisState where
  store : List (String × RVal) := []
  ttls : List (String × Nat) := []
  expireCalls : Nat := 0
deriving DecidableEq, Repr

def RedisState.empty : RedisState := {}

/-- Raw keyspace lookup. -/
def getAny (st : RedisState) (k : String) : Option RVal := kvGet st.store k

/-- Redis GET (string keys only). -/
def getStr (st : RedisState) (k : String) : Option Payload :=
  match kvGet st.store k with
  | some (.str p) => some p
  | _ => none

/-- Redis SETEX: set a string value together with its TTL. -/
def setex (st : RedisState) (k : String) (ttl : Nat) (p : Payload) :
    RedisState :=
  { st with store := kvSet st.store k (.str p), ttls := kvSet st.ttls k ttl }

/-- The integer stored at a counter key (0 when absent), as read by the cache
statistics. -/
def counterOf (st : RedisState) (k : String) : Rat :=
  match kvGet st.store k with
  | some (.str (.ok (.num q))) => q
  | _ => 0

/-- Redis INCRBY on a counter key (INCR is `incrBy · · 1`). -/
def incrBy (st : RedisState) (k : String) (d : Rat) : RedisState :=
  { st with store := kvSet st.store k (.str (.ok (.num (counterOf st k + d)))) }

/-- Redis HGETALL on a business hash; `none` models the empty dict. -/
def hgetBiz (st : RedisState) (k : String) : Option Biz :=
  match kvGet st.store k with
  | some (.hash b) => some b
  | _ => none

/-- Store a full business hash (the HSET of `update_business_ranking`). -/
def hsetBizFull (st : RedisState) (k : String) (b : Biz) : RedisState :=
  { st with store := kvSet st.store k (.hash b) }

/-- HSET of only the `stars` and `review_count` fields (the update written by
`update_ranking_on_review`); creates the hash if absent. -/
def hsetStarsCount (st : RedisState) (k : String) (stars : Rat)
    (count : Nat) : RedisState :=
  let b : Biz :=
    match hgetBiz st k with
    | some b => b
    | none => {}
  hsetBizFull st k { b with stars := stars, review_count := count }

/-- The member list of a sorted set (empty when the key is absent). -/
def zsetOf (st : RedisState) (k : String) : List (String × Rat) :=
  match kvGet st.store k with
  | some (.zset ms) => ms
  | _ => []

/-- Redis ZADD (add or update one member). -/
def zadd (st : RedisState) (k : String) (member : String) (score : Rat) :
    RedisState :=
  { st with store := kvSet st.store k (.zset (kvSet (zsetOf st k) member score)) }

/-- Redis ZSCORE. -/
def zscore (st : RedisState) (k : String) (member : String) : Option Rat :=
  kvGet (zsetOf st k) member

/-- Redis ZINCRBY (creates the key / member as needed, starting from 0). -/
def zincrby (st : RedisState) (k : String) (d : Rat) (member : String) :
    RedisState :=
  zadd st k member ((zscore st k member).getD 0 + d)

/-- The descending order used by ZREVRANGE / ZREVRANK: by score descending,
ties broken by descending member (reverse memcmp order). -/
def zRevLe (x y : String × Rat) : Prop :=
  y.2 < x.2 ∨ (y.2 = x.2 ∧ strLe y.1 x.1 = true)

instance : DecidableRel zRevLe := fun _ _ => inferInstanceAs (Decidable (_ ∨ _))

/-- The members of a sorted set in ZREVRANGE order. -/
def zrevList (st : RedisState) (k : String) : List (String × Rat) :=
  List.insertionSort zRevLe (zsetOf st k)

/-- `ZREVRANGE k 0 (limit-1) WITHSCORES` for a Python `limit : int ≥ 0`
(`limit = 0` gives stop index `-1`, i.e. the whole range). -/
def zrevrangeWS (st : RedisState) (k : String) (limit : Nat) :
    List (String × Rat) :=
  if limit = 0 then zrevList st k else (zrevList st k).take limit

/-- 0-based index of the first pair with the given member name. -/
def idxOfKey (member : String) : List (String × Rat) → Option Nat
  | [] => none
  | p :: t =>
    if p.1 = member then some 0 else (idxOfKey member t).map (· + 1)

/-- Redis ZREVRANK: 0-based position in ZREVRANGE order, `none` when the
member (or the whole key) is absent. -/
def zrevrank (st : RedisState) (k : String) (member : String) : Option Nat :=
  idxOfKey member (zrevList st k)

/-- Redis LPUSH on the observation-log list (entries modelled by the logged
star rating; the other JSON fields of the entry carry no ranking state). -/
def lpushRat (st : RedisState) (k : String) (q : Rat) : RedisState :=
  let xs := match kvGet st.store k with
    | some (.list xs) => xs
    | _ => []
  { st with store := kvSet st.store k (.list (q :: xs)) }

/-- `LTRIM k 0 99` — keep the 100 most recent entries. -/
def ltrim100 (st : RedisState) (k : String) : RedisState :=
  match kvGet st.store k with
  | some (.list xs) => { st with store := kvSet st.store k (.list (xs.take 100)) }
  | _ => st

/-- Redis TTL: `-2` when the key is absent, `-1` when it has no expiry,
otherwise the stored TTL. -/
def ttlCmd (st : RedisState) (k : String) : Int :=
  match kvGet st.store k with
  | none => -2
  | some _ =>
    match kvGet st.ttls k with
    | some t => (t : Int)
    | none => -1

/-- Redis EXPIRE (counted by the instrumentation field). -/
def expireCmd (st : RedisState) (k : String) (t : Nat) : RedisState :=
  { st with ttls := kvSet st.ttls k t, expireCalls := st.expireCalls + 1 }

/-- Redis KEYS: every key of the keyspace matching the glob pattern. -/
def keysCmd (st : RedisState) (pat : String) : List String :=
  (st.store.map Prod.fst).filter (fun k => globMatch pat k)

/-- Delete the given keys from the keyspace and the TTL table. -/
def delKeys (st : RedisState) (ks : List String) : RedisState :=
  { st with store := kvDel st.store ks, ttls := kvDel st.ttls ks }

/-- `rankings.py` line 39: the score formula
`stars * 100 + log10(max(review_count, 1)) * 10 + is_open * 5`.
`lg` stands for `math.log10` (never inspected by the code). -/
def scoreOf (lg : Nat → Rat) (stars : Rat) (review_count : Nat)
    (is_open : Int) : Rat :=
  stars * 100 + lg (max review_count 1) * 10 + (is_open : Rat) * 5

/-- The scoring formula exactly as the spec words it:
`score = rating * W1 + log10(max(popularity,1)) * W2 + (active ? W3 : 0)`
with `W1 = 100`, `W2 = 10`, `W3 = 5`. -/
def specScore (lg : Nat → Rat) (rating : Rat) (popularity : Nat)
    (active : Bool) : Rat :=
  rating * 100 + lg (max popularity 1) * 10 + (if active then 5 else 0)

/-- The Python dict handed to `update_business_ranking`: every field is
optional, `.get` defaults are applied inside the function, exactly as in the
source. -/
structure BizInput where
  business_id : Option String := none
  name : Option String := none
  city : Option String := none
  bstate : Option String := none
  stars : Option Rat := none
  review_count : Option Nat := none
  is_open : Option Int := none
  categories : Option (List String) := none
deriving Repr

/-- `RedisRankings.update_business_ranking` (rankings.py 17-72).  Returns the
new score; logs an error and returns `0.0` without touching the store when
`business_id` is missing from the dict. -/
def update_business_ranking (lg : Nat → Rat) (st : RedisState)
    (bd : BizInput) : RedisState × Rat :=
  match bd.business_id with
  | none => (st, 0)
  | some business_id =>
    let stars := bd.stars.getD 0
    let review_count := bd.review_count.getD 0
    let is_open := bd.is_open.getD 0
    let score := scoreOf lg stars review_count is_open
    let st := zadd st ("ranking:business:global") business_id score
    let city := normTag (bd.city.getD ("unknown"))
    let st :=
      if city ≠ "unknown" then
        zadd st ("ranking:business:city:" ++ city) business_id score
      else st
    let categories := bd.categories.getD []
    let st := (categories.take 3).foldl
      (fun s cat =>
        zadd s ("ranking:business:category:" ++ normCat cat) business_id score)
      st
    let st := hsetBizFull st ("business:" ++ business_id)
      { name := bd.name.getD (""), city := bd.city.getD (""),
        bstate := bd.bstate.getD (""), stars := stars,
        review_count := review_count, is_open := is_open,
        categories := categories }
    (st, score)

/-- `hgetall` result turned back into the Python dict handed around by
`update_ranking_on_review`; the stored hash has no `business_id` field, so
that entry of the dict stays absent. -/
def bizToInput (b : Biz) : BizInput :=
  { business_id := none, name := some b.name, city := some b.city,
    bstate := some b.bstate, stars := some b.stars,
    review_count := some b.review_count, is_open := some b.is_open,
    categories := some b.categories }

/-- The dict returned by `update_ranking_on_review` (timestamp field not
modelled). -/
structure ReviewResult where
  rbusiness_id : String
  new_average : Rat
  new_score : Rat
  total_reviews : Nat
deriving DecidableEq, Repr

def trendKey : String := "trending:businesses:last_hour"

/-- `RedisRankings._update_trending` (rankings.py 207-216). -/
def update_trending (st : RedisState) (business_id : String) : RedisState :=
  let st := zincrby st trendKey 1 business_id
  if ttlCmd st trendKey = -1 then expireCmd st trendKey 3600 else st

/-- `RedisRankings.update_ranking_on_review` (rankings.py 132-205).
`none` in the second component models the `{'error': ...}` return. -/
def update_ranking_on_review (lg : Nat → Rat) (st : RedisState)
    (review_business_id : Option String) (review_stars : Option Rat) :
    RedisState × Option ReviewResult :=
  let new_stars := review_stars.getD 0
  match review_business_id with
  | none => (st, none)
  | some business_id =>
    let business_key := "business:" ++ business_id
    let bd : BizInput :=
      match hgetBiz st business_key with
      | some b => bizToInput b
      | none =>
        { name := some ("Unknown"), city := some ("unknown"),
          stars := some 0, review_count := some 0 }
    let current_stars := bd.stars.getD 0
    let current_reviews := bd.review_count.getD 0
    let new_avg :=
      if current_reviews > 0 then
        (current_stars * current_reviews + new_stars) /
          ((current_reviews : Rat) + 1)
      else new_stars
    let st := hsetStarsCount st business_key (round2 new_avg)
      (current_reviews + 1)
    let merged : BizInput :=
      { bd with stars := some (round2 new_avg),
                review_count := some (current_reviews + 1) }
    let res := update_business_ranking lg st merged
    let st := res.1
    let new_score := res.2
    let review_key := "business:" ++ business_id ++ ":reviews"
    let st := lpushRat st review_key new_stars
    let st := ltrim100 st review_key
    let st := update_trending st business_id
    (st, some { rbusiness_id := business_id, new_average := new_avg,
                new_score := new_score,
                total_reviews := current_reviews + 1 })

/-- Sorted-set key selection shared by `get_top_businesses` and
`get_rank_position` (an empty location string is falsy in Python and falls
through to the global key). -/
def rankKeyOf (ranking_type : String) (location : Option String) : String :=
  match ranking_type, location with
  | "city", some loc =>
    if loc = "" then "ranking:business:global"
    else "ranking:business:city:" ++ normTag loc
  | "category", some loc =>
    if loc = "" then "ranking:business:global"
    else "ranking:business:category:" ++ normCat loc
  | _, _ => "ranking:business:global"

/-- One element of the list `get_top_businesses` returns. -/
structure TopEntry where
  tbusiness_id : String
  tscore : Rat
  tbiz : Biz
deriving DecidableEq, Repr

/-- `RedisRankings.get_top_businesses` (rankings.py 74-130).  Businesses with
no stored hash are skipped; with `with_scores = false` the score is fetched
with ZSCORE (`or 0`). -/
def get_top_businesses (st : RedisState) (ranking_type : String)
    (location : Option String) (limit : Nat) (with_scores : Bool) :
    List TopEntry :=
  let key := rankKeyOf ranking_type location
  let results := zrevrangeWS st key limit
  results.filterMap (fun item =>
    let business_id := item.1
    let score := if with_scores then item.2 else (zscore st key business_id).getD 0
    match hgetBiz st ("business:" ++ business_id) with
    | some b =>
      some { tbusiness_id := business_id, tscore := score, tbiz := b }
    | none => none)

/-- One element of the list `get_trending_businesses` returns. -/
structure TrendEntry where
  gbusiness_id : String
  trend_score : Int
  tname : String
  tcity : String
deriving DecidableEq, Repr

/-- `RedisRankings.get_trending_businesses` (rankings.py 218-235). -/
def get_trending_businesses (st : RedisState) (limit : Nat) :
    List TrendEntry :=
  let results := zrevrangeWS st trendKey limit
  results.filterMap (fun item =>
    match hgetBiz st ("business:" ++ item.1) with
    | some b =>
      some { gbusiness_id := item.1, trend_score := truncInt item.2,
             tname := b.name, tcity := b.city }
    | none => none)

/-- `RedisRankings.get_rank_position` (rankings.py 237-249):
`position + 1 if position is not None else None`. -/
def get_rank_position (st : RedisState) (business_id : String)
    (ranking_type : String) (location : Option String) : Option Nat :=
  let key := rankKeyOf ranking_type location
  (zrevrank st key business_id).map (· + 1)

/-- `RedisCache._generate_cache_key`: `{prefix}:{function_name}:{md5(args)}`;
the MD5 fingerprint of the argument tuple is abstracted as an arbitrary
function of the arguments (`argKey` below), which is all the cache logic
relies on. -/
def cacheKeyOf (pre function_name fingerprint : String) : String :=
  pre ++ ":" ++ function_name ++ ":" ++ fingerprint

def hitsKey (pre : String) : String := pre ++ ":stats:hits"

def missesKey (pre : String) : String := pre ++ ":stats:misses"

def dataSizeKey (pre : String) : String := pre ++ ":stats:data_size"

def hitsTypeKey (pre t : String) : String := pre ++ (":stats:hits:" ++ t)

def missesTypeKey (pre t : String) : String := pre ++ (":stats:misses:" ++ t)

/-- `RedisCache._record_cache_hit` (cache.py 76-84). -/
def record_cache_hit (pre cache_key : String) (st : RedisState) : RedisState :=
  let st := incrBy st (hitsKey pre) 1
  incrBy st (hitsTypeKey pre (cacheTypeOf cache_key)) 1

/-- `RedisCache._record_cache_miss` (cache.py 86-98). -/
def record_cache_miss (pre cache_key : String) (data_size : Nat)
    (st : RedisState) : RedisState :=
  let st := incrBy st (missesKey pre) 1
  let st := incrBy st (dataSizeKey pre) (data_size : Rat)
  incrBy st (missesTypeKey pre (cacheTypeOf cache_key)) 1

/-- The five statistics keys `record_cache_hit` / `record_cache_miss` write
for a cache entry of per-namespace type `t`. -/
def statsKeys (pre t : String) : List String :=
  [hitsKey pre, hitsTypeKey pre t, missesKey pre, dataSizeKey pre,
   missesTypeKey pre t]

/-- The wrapper produced by the decorator `RedisCache.cache_result`
(cache.py 30-74) applied to a pure function `f`.  `argKey` is the argument
fingerprint, `sz` is `len(json.dumps(result))`.  The third component records
whether the wrapped function was executed on this call. -/
def cache_result (pre function_name : String) (ttl : Nat) {α : Type}
    (f : α → Json) (argKey : α → String) (sz : Json → Nat)
    (st : RedisState) (a : α) : RedisState × Json × Bool :=
  let cache_key := cacheKeyOf pre function_name (argKey a)
  match getStr st cache_key with
  | some cached =>
    let st := record_cache_hit pre cache_key st
    (match decodePayload cached with
     | some v => (st, v, false)
     | none =>
       let result := f a
       let st := setex st cache_key ttl (.ok result)
       let st := record_cache_miss pre cache_key (sz result) st
       (st, result, true))
  | none =>
    let result := f a
    let st := setex st cache_key ttl (.ok result)
    let st := record_cache_miss pre cache_key (sz result) st
    (st, result, true)

/-- Global hit counter as `get_cache_stats` reads it. -/
def cacheHits (pre : String) (st : RedisState) : Rat :=
  counterOf st (hitsKey pre)

/-- Global miss counter. -/
def cacheMisses (pre : String) (st : RedisState) : Rat :=
  counterOf st (missesKey pre)

/-- Cumulative stored-bytes counter. -/
def cacheDataSize (pre : String) (st : RedisState) : Rat :=
  counterOf st (dataSizeKey pre)

/-- `RedisCache.invalidate_pattern` (cache.py 119-134): KEYS on
`{prefix}:{pattern}`, then DELETE; returns the number of keys removed. -/
def invalidate_pattern (pre : String) (st : RedisState) (pat : String) :
    RedisState × Nat :=
  let full_pattern := pre ++ ":" ++ pat
  let ks := keysCmd st full_pattern
  (delKeys st ks, ks.length)

/-- `RedisCache.clear_all` (cache.py 141-144). -/
def clear_all (pre : String) (st : RedisState) : RedisState × Nat :=
  invalidate_pattern pre st ("*")

/-- `RedisManager.invalidate_cache` (database.py 154-170).  Python's
`if business_id:` / `if city:` truthiness guards are modelled exactly:
`None` and the empty string both skip the corresponding deletion. -/
def invalidate_cache (st : RedisState) (business_id : Option String)
    (city : Option String) : RedisState :=
  let st :=
    match business_id with
    | some bid =>
      if bid = "" then st
      else delKeys st (keysCmd st ("cache:*" ++ bid ++ "*"))
    | none => st
  match city with
  | some c =>
    if c = "" then st
    else delKeys st (keysCmd st ("cache:*city:" ++ normTag c ++ "*"))
  | none => st

/-- `RedisManager.update_ranking_on_new_review` (database.py 80-120).  The
`city` argument is passed to `invalidate_cache` unconditionally, exactly as
at database.py:116 (the truthiness guard lives inside `invalidate_cache`).
Model boundary: stored hashes are total records, so this definition covers
the hashes this repository writes (`create_rankings` and
`update_business_ranking` always store the `stars`, `review_count` and
`city` fields); a hash missing those fields — creatable only through
`update_ranking_on_review`'s missing-entity path — would make the Python
code raise `KeyError` at `business_data['stars']` / `['city']` before any
write, a crash outside this model. -/
def update_ranking_on_new_review (st : RedisState) (business_id : String)
    (new_stars : Rat) : RedisState × Option Rat :=
  let business_key := "business:" ++ business_id
  match hgetBiz st business_key with
  | none => (st, none)
  | some b =>
    let current_stars := b.stars
    let current_reviews := b.review_count
    let new_avg := (current_stars * current_reviews + new_stars) /
      ((current_reviews : Rat) + 1)
    let st := hsetStarsCount st business_key new_avg (current_reviews + 1)
    let new_score := new_avg * 100
    let st := zadd st ("ranking:business:global") business_id new_score
    let city := normTag b.city
    let st := zadd st ("ranking:business:city:" ++ city) business_id new_score
    let st := zadd st ("ranking:business:popularity") business_id
      ((current_reviews : Rat) + 1)
    let st := invalidate_cache st (some business_id) (some city)
    (st, some new_avg)

/-- `k` successive trending increments for the same business id. -/
def iterTrend (st : RedisState) (business_id : String) : Nat → RedisState
  | 0 => st
  | k + 1 => update_trending (iterTrend st business_id k) business_id

theorem kvGet_kvSet_self {α : Type} (m : List (String × α)) (k : String)
    (v : α) : kvGet (kvSet m k v) k = some v := by
  induction m with
  | nil => simp [kvGet, kvSet]
  | cons p t ih =>
    by_cases h : p.1 = k
    · simp [kvGet, kvSet, h]
    · simp [kvGet, kvSet, h, ih]

theorem kvGet_kvSet_ne {α : Type} (m : List (String × α)) {k k' : String}
    (v : α) (h : k' ≠ k) : kvGet (kvSet m k' v) k = kvGet m k := by
  induction m with
  | nil => simp [kvGet, kvSet, h]
  | cons p t ih =>
    by_cases hp : p.1 = k'
    · simp [kvGet, kvSet, hp, h]
    · simp only [kvSet, hp, if_false]
      by_cases hk : p.1 = k
      · simp [kvGet, hk]
      · simp [kvGet, hk, ih]

theorem kvGet_kvDel_not_mem {α : Type} (m : List (String × α))
    (ks : List String) {k : String} (h : k ∉ ks) :
    kvGet (kvDel m ks) k = kvGet m k := by
  induction m with
  | nil => simp [kvGet, kvDel]
  | cons p t ih =>
    by_cases hm : p.1 ∈ ks
    · have hne : p.1 ≠ k := fun he => h (he ▸ hm)
      simp only [kvDel, hm, if_true]
      rw [ih]
      simp [kvGet, hne]
    · simp only [kvDel, hm, if_false]
      by_cases hk : p.1 = k
      · simp [kvGet, hk]
      · simp [kvGet, hk, ih]

theorem kvGet_kvDel_mem {α : Type} (m : List (String × α))
    (ks : List String) {k : String} (h : k ∈ ks) :
    kvGet (kvDel m ks) k = none := by
  induction m with
  | nil => simp [kvGet, kvDel]
  | cons p t ih =>
    by_cases hm : p.1 ∈ ks
    · simpa [kvDel, hm] using ih
    · have hne : p.1 ≠ k := fun he => hm (he ▸ h)
      simp only [kvDel, hm, if_false]
      simpa [kvGet, hne] using ih

theorem kvGet_kvDel_none {α : Type} (m : List (String × α))
    (ks : List String) {k : String} (h : kvGet m k = none) :
    kvGet (kvDel m ks) k = none := by
  by_cases hk : k ∈ ks
  · exact kvGet_kvDel_mem m ks hk
  · rw [kvGet_kvDel_not_mem m ks hk]; exact h

theorem kvGet_mem_map_fst {α : Type} (m : List (String × α)) {k : String}
    {v : α} (h : kvGet m k = some v) : k ∈ m.map Prod.fst := by
  induction m with
  | nil => simp [kvGet] at h
  | cons p t ih =>
    by_cases hp : p.1 = k
    · simp [hp]
    · simp only [kvGet, hp, if_false] at h
      simp [ih h]

theorem append_right_ne (pre : String) {x y : String} (h : x ≠ y) :
    pre ++ x ≠ pre ++ y := by
  intro he
  apply h
  apply String.ext
  have hd : pre.data ++ x.data = pre.data ++ y.data := by
    simpa [String.data_append] using congrArg String.data he
  exact List.append_cancel_left hd

theorem append_ne_of_take_ne {x y : String} (t : String) (n : Nat)
    (hn : n ≤ x.data.length) (h : x.data.take n ≠ y.data.take n) :
    x ++ t ≠ y := by
  intro he
  apply h
  have hd : x.data ++ t.data = y.data := by
    simpa [String.data_append] using congrArg String.data he
  calc x.data.take n = (x.data ++ t.data).take n := by
        rw [List.take_append_of_le_length hn]
    _ = y.data.take n := by rw [hd]

theorem hitsKey_ne_missesKey (pre : String) : hitsKey pre ≠ missesKey pre :=
  append_right_ne pre (by decide)

theorem hitsKey_ne_dataSizeKey (pre : String) :
    hitsKey pre ≠ dataSizeKey pre :=
  append_right_ne pre (by decide)

theorem missesKey_ne_dataSizeKey (pre : String) :
    missesKey pre ≠ dataSizeKey pre :=
  append_right_ne pre (by decide)

theorem missesTypeKey_ne_hitsKey (pre t : String) :
    missesTypeKey pre t ≠ hitsKey pre :=
  append_right_ne pre (append_ne_of_take_ne t 8 (by decide) (by decide))

theorem missesTypeKey_ne_missesKey (pre t : String) :
    missesTypeKey pre t ≠ missesKey pre :=
  append_right_ne pre (append_ne_of_take_ne t 14 (by decide) (by decide))

theorem missesTypeKey_ne_dataSizeKey (pre t : String) :
    missesTypeKey pre t ≠ dataSizeKey pre :=
  append_right_ne pre (append_ne_of_take_ne t 8 (by decide) (by decide))

theorem hitsTypeKey_ne_hitsKey (pre t : String) :
    hitsTypeKey pre t ≠ hitsKey pre :=
  append_right_ne pre (append_ne_of_take_ne t 12 (by decide) (by decide))

theorem hitsTypeKey_ne_missesKey (pre t : String) :
    hitsTypeKey pre t ≠ missesKey pre :=
  append_right_ne pre (append_ne_of_take_ne t 8 (by decide) (by decide))

theorem hitsTypeKey_ne_dataSizeKey (pre t : String) :
    hitsTypeKey pre t ≠ dataSizeKey pre :=
  append_right_ne pre (append_ne_of_take_ne t 8 (by decide) (by decide))

theorem getStr_setex_self (st : RedisState) (k : String) (ttl : Nat)
    (p : Payload) : getStr (setex st k ttl p) k = some p := by
  simp [getStr, setex, kvGet_kvSet_self]

theorem getStr_setex_ne (st : RedisState) {k' k : String} (ttl : Nat)
    (p : Payload) (h : k' ≠ k) : getStr (setex st k' ttl p) k = getStr st k := by
  simp [getStr, setex, kvGet_kvSet_ne _ _ h]

theorem getStr_incrBy_ne (st : RedisState) {k' k : String} (d : Rat)
    (h : k' ≠ k) : getStr (incrBy st k' d) k = getStr st k := by
  simp [getStr, incrBy, kvGet_kvSet_ne _ _ h]

theorem counterOf_incrBy_self (st : RedisState) (k : String) (d : Rat) :
    counterOf (incrBy st k d) k = counterOf st k + d := by
  simp [counterOf, incrBy, kvGet_kvSet_self]

theorem counterOf_incrBy_ne (st : RedisState) {k' k : String} (d : Rat)
    (h : k' ≠ k) : counterOf (incrBy st k' d) k = counterOf st k := by
  simp [counterOf, incrBy, kvGet_kvSet_ne _ _ h]

theorem counterOf_setex_ne (st : RedisState) {k' k : String} (ttl : Nat)
    (p : Payload) (h : k' ≠ k) :
    counterOf (setex st k' ttl p) k = counterOf st k := by
  simp [counterOf, setex, kvGet_kvSet_ne _ _ h]

theorem globChars_lit_startsWith (pre : List Char) (hp : '*' ∉ pre) :
    ∀ (pat s : List Char), globChars (pre ++ pat) s = true → pre <+: s := by
  induction pre with
  | nil => intro pat s _; exact List.nil_prefix
  | cons c cs ih =>
    intro pat s hm
    have hc : c ≠ '*' := fun he => hp (he ▸ List.mem_cons_self c cs)
    have hcs : '*' ∉ cs := fun hmem => hp (List.mem_cons_of_mem c hmem)
    cases s with
    | nil => simp [globChars, hc] at hm
    | cons d ds =>
      simp only [List.cons_append, globChars, hc, if_false] at hm
      by_cases hcd : c = d
      · simp only [hcd, if_true] at hm
        exact List.cons_prefix_cons.mpr ⟨hcd, ih hcs pat ds hm⟩
      · simp [hcd] at hm

theorem globMatch_lit_startsWith {pre pat s : String} (hp : '*' ∉ pre.data)
    (hm : globMatch (pre ++ pat) s = true) : pre.data <+: s.data := by
  have : globChars (pre.data ++ pat.data) s.data = true := by
    simpa [globMatch, String.data_append] using hm
  exact globChars_lit_startsWith pre.data hp pat.data s.data this

theorem zscore_zadd_self (st : RedisState) (k m : String) (s : Rat) :
    zscore (zadd st k m s) k m = some s := by
  simp [zscore, zadd, zsetOf, kvGet_kvSet_self]

theorem zscore_zadd_ne_member (st : RedisState) (k : String) {m' m : String}
    (s : Rat) (h : m' ≠ m) : zscore (zadd st k m' s) k m = zscore st k m := by
  simp [zscore, zadd, zsetOf, kvGet_kvSet_self, kvGet_kvSet_ne _ _ h]

theorem zscore_zincrby_self (st : RedisState) (k : String) (d : Rat)
    (m : String) :
    zscore (zincrby st k d m) k m = some ((zscore st k m).getD 0 + d) := by
  simp [zincrby, zscore_zadd_self]

theorem getAny_setex_ne (st : RedisState) {k' k : String} (ttl : Nat)
    (p : Payload) (h : k' ≠ k) : getAny (setex st k' ttl p) k = getAny st k := by
  simp [getAny, setex, kvGet_kvSet_ne _ _ h]

theorem getAny_incrBy_ne (st : RedisState) {k' k : String} (d : Rat)
    (h : k' ≠ k) : getAny (incrBy st k' d) k = getAny st k := by
  simp [getAny, incrBy, kvGet_kvSet_ne _ _ h]

theorem getAny_zadd_ne (st : RedisState) {k' k : String} (m : String)
    (s : Rat) (h : k' ≠ k) : getAny (zadd st k' m s) k = getAny st k := by
  simp [getAny, zadd, kvGet_kvSet_ne _ _ h]

theorem getAny_zincrby_ne (st : RedisState) {k' k : String} (d : Rat)
    (m : String) (h : k' ≠ k) : getAny (zincrby st k' d m) k = getAny st k := by
  simp [zincrby, getAny_zadd_ne _ _ _ h]

theorem getAny_hsetBizFull_ne (st : RedisState) {k' k : String} (b : Biz)
    (h : k' ≠ k) : getAny (hsetBizFull st k' b) k = getAny st k := by
  simp [getAny, hsetBizFull, kvGet_kvSet_ne _ _ h]

theorem getAny_hsetStarsCount_ne (st : RedisState) {k' k : String}
    (stars : Rat) (count : Nat) (h : k' ≠ k) :
    getAny (hsetStarsCount st k' stars count) k = getAny st k := by
  simp only [hsetStarsCount]
  exact getAny_hsetBizFull_ne _ _ h

theorem getAny_lpushRat_ne (st : RedisState) {k' k : String} (q : Rat)
    (h : k' ≠ k) : getAny (lpushRat st k' q) k = getAny st k := by
  simp [getAny, lpushRat, kvGet_kvSet_ne _ _ h]

theorem getAny_ltrim100_ne (st : RedisState) {k' k : String} (h : k' ≠ k) :
    getAny (ltrim100 st k') k = getAny st k := by
  unfold ltrim100
  cases hv : kvGet st.store k' with
  | none => rfl
  | some v =>
    cases v with
    | str p => rfl
    | hash b => rfl
    | zset ms => rfl
    | list xs => simp [getAny, kvGet_kvSet_ne _ _ h]

theorem getAny_expireCmd (st : RedisState) (k' : String) (t : Nat)
    (k : String) : getAny (expireCmd st k' t) k = getAny st k := rfl

theorem hgetBiz_hsetStarsCount_self (st : RedisState) (k : String)
    (stars : Rat) (count : Nat) :
    hgetBiz (hsetStarsCount st k stars count) k =
      some { (match hgetBiz st k with | some b => b | none => ({} : Biz)) with
             stars := stars, review_count := count } := by
  simp [hsetStarsCount, hgetBiz, hsetBizFull, kvGet_kvSet_self]

theorem hgetBiz_of_getAny (st : RedisState) (k : String) :
    hgetBiz st k = match getAny st k with
      | some (.hash b) => some b
      | _ => none := rfl

theorem ttls_zadd (st : RedisState) (k m : String) (s : Rat) :
    (zadd st k m s).ttls = st.ttls := rfl

theorem ttls_zincrby (st : RedisState) (k : String) (d : Rat) (m : String) :
    (zincrby st k d m).ttls = st.ttls := rfl

theorem ttls_hsetBizFull (st : RedisState) (k : String) (b : Biz) :
    (hsetBizFull st k b).ttls = st.ttls := rfl

theorem ttls_hsetStarsCount (st : RedisState) (k : String) (stars : Rat)
    (count : Nat) : (hsetStarsCount st k stars count).ttls = st.ttls := by
  simp [hsetStarsCount, hsetBizFull]

theorem ttls_lpushRat (st : RedisState) (k : String) (q : Rat) :
    (lpushRat st k q).ttls = st.ttls := rfl

theorem ttls_ltrim100 (st : RedisState) (k : String) :
    (ltrim100 st k).ttls = st.ttls := by
  unfold ltrim100
  cases hv : kvGet st.store k with
  | none => rfl
  | some v => cases v <;> rfl

theorem charsLe_total (a b : List Char) :
    charsLe a b = true ∨ charsLe b a = true := by
  induction a generalizing b with
  | nil => left; rfl
  | cons x xs ih =>
    cases b with
    | nil => right; rfl
    | cons y ys =>
      rcases Nat.lt_trichotomy x.toNat y.toNat with h | h | h
      · left; simp [charsLe, h]
      · have hxy : ¬ x.toNat < y.toNat := by omega
        have hyx : ¬ y.toNat < x.toNat := by omega
        rcases ih ys with hc | hc
        · left; simp [charsLe, hxy, hyx, hc]
        · right; simp [charsLe, hxy, hyx, hc]
      · right; simp [charsLe, h]

theorem charsLe_trans {a b c : List Char} (h₁ : charsLe a b = true)
    (h₂ : charsLe b c = true) : charsLe a c = true := by
  induction a generalizing b c with
  | nil => rfl
  | cons x xs ih =>
    cases b with
    | nil => simp [charsLe] at h₁
    | cons y ys =>
      cases c with
      | nil => simp [charsLe] at h₂
      | cons z zs =>
        simp only [charsLe] at h₁ h₂ ⊢
        rcases Nat.lt_trichotomy x.toNat y.toNat with hxy | hxy | hxy
        · rcases Nat.lt_trichotomy y.toNat z.toNat with hyz | hyz | hyz
          · simp [show x.toNat < z.toNat by omega]
          · simp [show x.toNat < z.toNat by omega]
          · simp [hyz, show ¬ y.toNat < z.toNat by omega] at h₂
        · rcases Nat.lt_trichotomy y.toNat z.toNat with hyz | hyz | hyz
          · simp [show x.toNat < z.toNat by omega]
          · have hxz : ¬ x.toNat < z.toNat := by omega
            have hzx : ¬ z.toNat < x.toNat := by omega
            simp only [show ¬ x.toNat < y.toNat by omega,
              show ¬ y.toNat < x.toNat by omega, if_false] at h₁
            simp only [show ¬ y.toNat < z.toNat by omega,
              show ¬ z.toNat < y.toNat by omega, if_false] at h₂
            simp [hxz, hzx, ih h₁ h₂]
          · simp [hyz, show ¬ y.toNat < z.toNat by omega] at h₂
        · simp [hxy, show ¬ x.toNat < y.toNat by omega] at h₁

@[instance] theorem zRevLe_isTotal : IsTotal (String × Rat) zRevLe := by
  constructor
  intro a b
  rcases lt_trichotomy a.2 b.2 with h | h | h
  · right; exact Or.inl h
  · rcases charsLe_total a.1.data b.1.data with hc | hc
    · right; exact Or.inr ⟨h, hc⟩
    · left; exact Or.inr ⟨h.symm, hc⟩
  · left; exact Or.inl h

@[instance] theorem zRevLe_isTrans : IsTrans (String × Rat) zRevLe := by
  constructor
  intro a b c h₁ h₂
  rcases h₁ with h₁ | ⟨he₁, hc₁⟩
  · rcases h₂ with h₂ | ⟨he₂, hc₂⟩
    · exact Or.inl (h₂.trans h₁)
    · exact Or.inl (lt_of_le_of_lt (le_of_eq he₂) h₁)
  · rcases h₂ with h₂ | ⟨he₂, hc₂⟩
    · exact Or.inl (lt_of_lt_of_le h₂ (le_of_eq he₁))
    · exact Or.inr ⟨he₂.trans he₁, charsLe_trans hc₂ hc₁⟩

theorem pairwise_filterMap_of {α β : Type} {R : α → α → Prop}
    {S : β → β → Prop} (g : α → Option β)
    (H : ∀ a b, R a b → ∀ c d, g a = some c → g b = some d → S c d) :
    ∀ {l : List α}, l.Pairwise R → (l.filterMap g).Pairwise S := by
  intro l
  induction l with
  | nil => intro _; simp
  | cons a t ih =>
    intro hl
    rw [List.pairwise_cons] at hl
    obtain ⟨hr, ht⟩ := hl
    cases hg : g a with
    | none => simpa [List.filterMap_cons, hg] using ih ht
    | some ca =>
      simp only [List.filterMap_cons, hg]
      rw [List.pairwise_cons]
      refine ⟨?_, ih ht⟩
      intro d hd
      obtain ⟨b, hb, hgb⟩ := List.mem_filterMap.mp hd
      exact H a b (hr b hb) ca d hg hgb

theorem truncInt_mono {a b : Rat} (h : a ≤ b) : truncInt a ≤ truncInt b := by
  unfold truncInt
  by_cases ha : a < 0
  · by_cases hb : b < 0
    · simp [ha, hb, Int.ceil_le_ceil h]
    · simp only [ha, hb, if_true, if_false]
      have h1 : (⌈a⌉ : Int) ≤ 0 := by
        have hq : a ≤ ((0 : Int) : Rat) := by exact_mod_cast le_of_lt ha
        exact Int.ceil_le.mpr hq
      have h2 : (0 : Int) ≤ ⌊b⌋ := by
        have hq : ((0 : Int) : Rat) ≤ b := by exact_mod_cast not_lt.mp hb
        exact Int.le_floor.mpr hq
      omega
  · have hb : ¬ b < 0 := fun hb => ha (lt_of_le_of_lt h hb)
    simp [ha, hb, Int.floor_le_floor h]

theorem kvGet_eq_none_iff {α : Type} (m : List (String × α)) (k : String) :
    kvGet m k = none ↔ ∀ p ∈ m, p.1 ≠ k := by
  induction m with
  | nil => simp [kvGet]
  | cons p t ih =>
    by_cases hp : p.1 = k
    · simp [kvGet, hp]
    · simp [kvGet, hp, ih]

theorem kvGet_some_mem {α : Type} {m : List (String × α)} {k : String}
    {v : α} (h : kvGet m k = some v) : (k, v) ∈ m := by
  induction m with
  | nil => simp [kvGet] at h
  | cons p t ih =>
    by_cases hp : p.1 = k
    · simp only [kvGet, hp, if_true, Option.some_inj] at h
      exact List.mem_cons.mpr (Or.inl (Prod.ext hp h).symm)
    · simp only [kvGet, hp, if_false] at h
      exact List.mem_cons_of_mem _ (ih h)

theorem nodup_fst_eq {l : List (String × Rat)}
    (h : (l.map Prod.fst).Nodup) {k : String} {a b : Rat}
    (ha : (k, a) ∈ l) (hb : (k, b) ∈ l) : a = b := by
  induction l with
  | nil => simp at ha
  | cons p t ih =>
    simp only [List.map_cons, List.nodup_cons] at h
    rcases List.mem_cons.mp ha with ha' | ha' <;>
      rcases List.mem_cons.mp hb with hb' | hb'
    · exact congrArg Prod.snd (ha'.trans hb'.symm)
    · exact absurd (by simpa [← ha'] using List.mem_map_of_mem Prod.fst hb') h.1
    · exact absurd (by simpa [← hb'] using List.mem_map_of_mem Prod.fst ha') h.1
    · exact ih h.2 ha' hb'

theorem idxOfKey_eq_none_iff (m : String) (l : List (String × Rat)) :
    idxOfKey m l = none ↔ ∀ p ∈ l, p.1 ≠ m := by
  induction l with
  | nil => simp [idxOfKey]
  | cons p t ih =>
    by_cases hp : p.1 = m
    · simp [idxOfKey, hp]
    · simp [idxOfKey, hp, ih]

theorem append_ne_self (x t : String) (ht : t ≠ "") : x ++ t ≠ x := by
  intro he
  apply ht
  have hd : x.data ++ t.data = x.data := by
    simpa [String.data_append] using congrArg String.data he
  have hlen := congrArg List.length hd
  simp only [List.length_append] at hlen
  have : t.data = [] := List.eq_nil_of_length_eq_zero (by omega)
  exact String.ext (by simp [this])

theorem business_ne_trend (id : String) : trendKey ≠ "business:" ++ id := by
  have h := append_ne_of_take_ne (x := "business:") (y := trendKey) id 1
    (by decide) (by decide)
  exact fun he => h he.symm

theorem reviews_ne_business (id : String) :
    ("business:" ++ id) ++ ":reviews" ≠ "business:" ++ id :=
  append_ne_self _ _ (by decide)

theorem hgetBiz_congr {st st' : RedisState} (k : String)
    (h : getAny st k = getAny st' k) : hgetBiz st k = hgetBiz st' k := by
  rw [hgetBiz_of_getAny, hgetBiz_of_getAny, h]

theorem getAny_update_trending_ne (st : RedisState) (id : String)
    {k : String} (h : trendKey ≠ k) :
    getAny (update_trending st id) k = getAny st k := by
  unfold update_trending
  by_cases hc : ttlCmd (zincrby st trendKey 1 id) trendKey = -1
  · simp only [hc, if_true]
    rw [getAny_expireCmd, getAny_zincrby_ne _ _ _ h]
  · simp only [hc, if_false]
    rw [getAny_zincrby_ne _ _ _ h]

theorem roundHalfEven_eq_floor {x : Rat} {n : Int} (hf : ⌊x⌋ = n)
    (hlt : x - n < 1 / 2) : roundHalfEven x = n := by
  simp only [roundHalfEven, hf]
  rw [if_pos hlt]

theorem roundHalfEven_intCast (n : Int) : roundHalfEven ((n : Int) : Rat) = n := by
  apply roundHalfEven_eq_floor (Int.floor_intCast n)
  norm_num

theorem round2_int_div_100 {x : Rat} {n : Int} (hf : ⌊x * 100⌋ = n)
    (hlt : x * 100 - n < 1 / 2) : round2 x = (n : Rat) / 100 := by
  rw [round2, roundHalfEven_eq_floor hf hlt]

/-- Characterisation of `update_ranking_on_review` when the business hash
exists and has at least one prior review: the stored rating becomes the
2-decimal rounding of the running average, the stored count is incremented,
the returned average is exact, and the returned score is `0.0` (the inner
`update_business_ranking` call receives a dict without a `business_id` key
and returns early). -/
theorem update_review_found (lg : Nat → Rat) (st : RedisState) (id : String)
    (v : Rat) (b : Biz) (hb : hgetBiz st ("business:" ++ id) = some b)
    (hc : 0 < b.review_count) :
    hgetBiz (update_ranking_on_review lg st (some id) (some v)).1
        ("business:" ++ id) =
      some { b with
             stars := round2 ((b.stars * b.review_count + v) /
               ((b.review_count : Rat) + 1)),
             review_count := b.review_count + 1 }
    ∧ (update_ranking_on_review lg st (some id) (some v)).2 =
      some { rbusiness_id := id,
             new_average := (b.stars * b.review_count + v) /
               ((b.review_count : Rat) + 1),
             new_score := 0, total_reviews := b.review_count + 1 } := by
  simp only [update_ranking_on_review, hb, Option.getD_some, bizToInput]
  rw [if_pos hc]
  simp only [update_business_ranking]
  constructor
  · rw [hgetBiz_congr _ (getAny_update_trending_ne _ _ (business_ne_trend id)),
      hgetBiz_congr _ (getAny_ltrim100_ne _ (reviews_ne_business id)),
      hgetBiz_congr _ (getAny_lpushRat_ne _ _ (reviews_ne_business id)),
      hgetBiz_hsetStarsCount_self, hb]
  · trivial

/-- Characterisation of `update_ranking_on_review` when the business hash is
absent: a fresh hash is created holding only the new rating and count (the
other fields get their defaults), the observed rating becomes the new
average, and the call reports success instead of failing. -/
theorem update_review_missing (lg : Nat → Rat) (st : RedisState)
    (id : String) (v : Rat)
    (hb : hgetBiz st ("business:" ++ id) = none) :
    hgetBiz (update_ranking_on_review lg st (some id) (some v)).1
        ("business:" ++ id) =
      some { stars := round2 v, review_count := 1 }
    ∧ (update_ranking_on_review lg st (some id) (some v)).2 =
      some { rbusiness_id := id, new_average := v, new_score := 0,
             total_reviews := 1 } := by
  simp only [update_ranking_on_review, hb, Option.getD_some]
  rw [if_neg (lt_irrefl 0)]
  simp only [update_business_ranking]
  constructor
  · rw [hgetBiz_congr _ (getAny_update_trending_ne _ _ (business_ne_trend id)),
      hgetBiz_congr _ (getAny_ltrim100_ne _ (reviews_ne_business id)),
      hgetBiz_congr _ (getAny_lpushRat_ne _ _ (reviews_ne_business id)),
      hgetBiz_hsetStarsCount_self, hb]
  · trivial

/-- Frame property of `update_ranking_on_review`: the only keyspace entries
it can touch are the business hash, its review log, and the trending index.
In particular it deletes nothing. -/
theorem update_review_frame (lg : Nat → Rat) (st : RedisState) (id : String)
    (v : Rat) {k : String} (h1 : k ≠ "business:" ++ id)
    (h2 : k ≠ ("business:" ++ id) ++ ":reviews") (h3 : k ≠ trendKey) :
    getAny (update_ranking_on_review lg st (some id) (some v)).1 k =
      getAny st k := by
  cases hB : hgetBiz st ("business:" ++ id) with
  | some b =>
    simp only [update_ranking_on_review, hB, Option.getD_some, bizToInput,
      update_business_ranking]
    rw [getAny_update_trending_ne _ _ (Ne.symm h3),
      getAny_ltrim100_ne _ (Ne.symm h2), getAny_lpushRat_ne _ _ (Ne.symm h2),
      getAny_hsetStarsCount_ne _ _ _ (Ne.symm h1)]
  | none =>
    simp only [update_ranking_on_review, hB, Option.getD_some,
      update_business_ranking]
    rw [getAny_update_trending_ne _ _ (Ne.symm h3),
      getAny_ltrim100_ne _ (Ne.symm h2), getAny_lpushRat_ne _ _ (Ne.symm h2),
      getAny_hsetStarsCount_ne _ _ _ (Ne.symm h1)]

/-- C1: for every entity attribute record with rating `r`, popularity count
`p` and active flag `a`, the score computed on upsert equals
`r * 100 + log10(max(p,1)) * 10 + (a ? 5 : 0)` (with `lg` standing for
`log10`); the computation agrees with the spec formula, is deterministic
(identical attributes give identical scores — immediate for a pure
function), and is total, also at the edge cases `p = 0` and `r = 0`. -/
theorem score_formula_correct :
    ∀ (lg : Nat → Rat) (rating : Rat) (popularity : Nat) (active : Bool),
      scoreOf lg rating popularity (if active then 1 else 0) =
        specScore lg rating popularity active
      ∧ specScore lg rating popularity active =
        rating * 100 + lg (max popularity 1) * 10 +
          (if active then (5 : Rat) else 0)
      ∧ scoreOf lg rating 0 (if active then 1 else 0) =
        rating * 100 + lg 1 * 10 + (if active then (5 : Rat) else 0)
      ∧ scoreOf lg 0 popularity (if active then 1 else 0) =
        lg (max popularity 1) * 10 + (if active then (5 : Rat) else 0)
      ∧ (∀ (r₂ : Rat) (p₂ : Nat) (a₂ : Bool), rating = r₂ → popularity = p₂ →
          active = a₂ →
          scoreOf lg rating popularity (if active then 1 else 0) =
            scoreOf lg r₂ p₂ (if a₂ then 1 else 0)) := by
  intro lg rating popularity active
  refine ⟨?_, ?_, ?_, ?_, ?_⟩
  · cases active <;> simp [scoreOf, specScore]
  · rfl
  · cases active <;> simp [scoreOf]
  · cases active <;> simp [scoreOf]
  · intro r₂ p₂ a₂ h1 h2 h3
    rw [h1, h2, h3]

/-- C2 (corrected): `recordObservation` on an existing entity with
`oldCount ≥ 1` stores `round(newAvg, 2)` — the running average rounded to two
decimals — not the exact average; the stored popularity becomes
`oldCount + 1` and the returned `new_average` is the exact
`(oldRating*oldCount + v) / (oldCount+1)`. -/
theorem recordObservation_stores_rounded_average (lg : Nat → Rat)
    (st : RedisState) (id : String) (v : Rat) (b : Biz)
    (hb : hgetBiz st ("business:" ++ id) = some b)
    (hc : 0 < b.review_count) :
    hgetBiz (update_ranking_on_review lg st (some id) (some v)).1
        ("business:" ++ id) =
      some { b with
             stars := round2 ((b.stars * b.review_count + v) /
               ((b.review_count : Rat) + 1)),
             review_count := b.review_count + 1 }
    ∧ (update_ranking_on_review lg st (some id) (some v)).2 =
      some { rbusiness_id := id,
             new_average := (b.stars * b.review_count + v) /
               ((b.review_count : Rat) + 1),
             new_score := 0, total_reviews := b.review_count + 1 } :=
  update_review_found lg st id v b hb hc

/-- C2 witness: the spec's own example — an entity with rating 4.0 and
popularity 1 receiving an observation of 5.0 ends with stored rating 4.5
(here `round2` is exact) and popularity 2. -/
theorem recordObservation_stores_rounded_average_witness :
    hgetBiz (update_ranking_on_review (fun _ => 0)
        { store := [("business:b1", RVal.hash { stars := 4, review_count := 1 })] }
        (some ("b1")) (some 5)).1 ("business:" ++ "b1") =
      some { stars := (9 : Rat) / 2, review_count := 2 }
    ∧ (update_ranking_on_review (fun _ => 0)
        { store := [("business:b1", RVal.hash { stars := 4, review_count := 1 })] }
        (some ("b1")) (some 5)).2 =
      some { rbusiness_id := "b1", new_average := (9 : Rat) / 2,
             new_score := 0, total_reviews := 2 } := by
  have h := recordObservation_stores_rounded_average (fun _ => 0)
    { store := [("business:b1", RVal.hash { stars := 4, review_count := 1 })] }
    "b1" 5 { stars := 4, review_count := 1 } (by decide) (by decide)
  obtain ⟨h1, h2⟩ := h
  have harg : (({ stars := 4, review_count := 1 } : Biz).stars *
      (({ stars := 4, review_count := 1 } : Biz).review_count : Rat) + 5) /
      ((({ stars := 4, review_count := 1 } : Biz).review_count : Rat) + 1) =
      9 / 2 := by norm_num
  rw [harg] at h1 h2
  have h450 : round2 ((9 : Rat) / 2) = ((450 : Int) : Rat) / 100 :=
    round2_int_div_100 (by rw [Int.floor_eq_iff] <;> norm_num) (by norm_num)
  have h452 : round2 ((9 : Rat) / 2) = 9 / 2 := by rw [h450]; norm_num
  rw [h452] at h1
  exact ⟨h1, h2⟩

/-- C2 counterexample: with stored rating 4.0 and popularity 2, an
observation of 5.0 stores `round2(13/3) = 4.33`, not the exact running
average `13/3` the claim asserts. -/
theorem recordObservation_exact_average_false :
    hgetBiz (update_ranking_on_review (fun _ => 0)
        { store := [("business:b1", RVal.hash { stars := 4, review_count := 2 })] }
        (some ("b1")) (some 5)).1 ("business:" ++ "b1") ≠
      some { name := "", city := "", bstate := "",
             stars := (4 * ((2 : Nat) : Rat) + 5) / (((2 : Nat) : Rat) + 1),
             review_count := 3, is_open := 0, categories := [] } := by
  intro he
  have h := update_review_found (fun _ => 0)
    { store := [("business:b1", RVal.hash { stars := 4, review_count := 2 })] }
    "b1" 5 { stars := 4, review_count := 2 } (by decide) (by decide)
  rw [h.1] at he
  have hs := congrArg (fun o : Option Biz => (o.getD {}).stars) he
  simp only [Option.getD_some] at hs
  have harg : (({ stars := 4, review_count := 2 } : Biz).stars *
      (({ stars := 4, review_count := 2 } : Biz).review_count : Rat) + 5) /
      ((({ stars := 4, review_count := 2 } : Biz).review_count : Rat) + 1) =
      13 / 3 := by norm_num
  rw [harg] at hs
  have h433 : round2 ((13 : Rat) / 3) = ((433 : Int) : Rat) / 100 :=
    round2_int_div_100 (by rw [Int.floor_eq_iff] <;> norm_num) (by norm_num)
  rw [h433] at hs
  norm_num at hs

/-- C5 (corrected): `recordObservation` on a missing entity does NOT fail
with `NotFound`: the code logs a warning, fabricates a default record
(rating 0, popularity 0), stores a fresh hash holding the new rating and
count 1, and reports success. -/
theorem recordObservation_missing_creates_default (lg : Nat → Rat)
    (st : RedisState) (id : String) (v : Rat)
    (hb : hgetBiz st ("business:" ++ id) = none) :
    hgetBiz (update_ranking_on_review lg st (some id) (some v)).1
        ("business:" ++ id) =
      some { stars := round2 v, review_count := 1 }
    ∧ (update_ranking_on_review lg st (some id) (some v)).2 =
      some { rbusiness_id := id, new_average := v, new_score := 0,
             total_reviews := 1 } :=
  update_review_missing lg st id v hb

/-- C5 witness: on the empty store, observing rating 5.0 for the absent
entity `b1` creates its record with rating 5 and popularity 1 and returns a
success result. -/
theorem recordObservation_missing_creates_default_witness :
    hgetBiz (update_ranking_on_review (fun _ => 0) RedisState.empty
        (some ("b1")) (some 5)).1 ("business:" ++ "b1") =
      some { stars := (5 : Rat), review_count := 1 }
    ∧ (update_ranking_on_review (fun _ => 0) RedisState.empty
        (some ("b1")) (some 5)).2 =
      some { rbusiness_id := "b1", new_average := 5, new_score := 0,
             total_reviews := 1 } := by
  have h := recordObservation_missing_creates_default (fun _ => 0)
    RedisState.empty "b1" 5 (by decide)
  have h500 : round2 ((5 : Rat)) = ((500 : Int) : Rat) / 100 :=
    round2_int_div_100 (by rw [Int.floor_eq_iff] <;> norm_num) (by norm_num)
  have h5 : round2 ((5 : Rat)) = 5 := by rw [h500]; norm_num
  rw [h5] at h
  exact h

/-- C5 counterexample: on the empty store, `recordObservation` for the
absent entity `b1` returns a success result (not a `NotFound` failure) and
changes the store (the entity record exists afterwards), refuting both
halves of the claim. -/
theorem recordObservation_missing_not_notfound :
    (update_ranking_on_review (fun _ => 0) RedisState.empty (some ("b1"))
        (some 5)).2 ≠ none
    ∧ hgetBiz (update_ranking_on_review (fun _ => 0) RedisState.empty
        (some ("b1")) (some 5)).1 ("business:" ++ "b1") ≠ none := by
  have h := update_review_missing (fun _ => 0) RedisState.empty "b1" 5
    (by decide)
  constructor
  · rw [h.2]; simp
  · rw [h.1]; simp

theorem getAny_delMatching (st : RedisState) (pat : String) {k : String}
    (h : globMatch pat k = true) :
    getAny (delKeys st (keysCmd st pat)) k = none := by
  cases hv : kvGet st.store k with
  | none => exact kvGet_kvDel_none _ _ hv
  | some v =>
    apply kvGet_kvDel_mem
    have hmem : k ∈ st.store.map Prod.fst := kvGet_mem_map_fst _ hv
    simp [keysCmd, List.mem_filter, hmem, h]

theorem getAny_delKeys_none (st : RedisState) (ks : List String) {k : String}
    (h : getAny st k = none) : getAny (delKeys st ks) k = none :=
  kvGet_kvDel_none _ _ h

theorem getAny_delMatching_notmatch (st : RedisState) (pat : String)
    {k : String} (h : globMatch pat k = false) :
    getAny (delKeys st (keysCmd st pat)) k = getAny st k := by
  apply kvGet_kvDel_not_mem
  intro hmem
  simp only [keysCmd, List.mem_filter] at hmem
  rw [hmem.2] at h
  exact Bool.noConfusion h

/-- After `RedisManager.update_ranking_on_new_review` on an existing entity
with a truthy (non-empty) id, every key matching the id glob
`cache:*{id}*` is gone, and — when the entity's stored normalised city tag
is also truthy — so is every key matching `cache:*city:{city}*`. -/
theorem update_on_new_review_invalidates (st : RedisState) (id : String)
    (v : Rat) (b : Biz) (hb : hgetBiz st ("business:" ++ id) = some b)
    (hid : id ≠ "") :
    ∀ k : String,
      (globMatch ("cache:*" ++ id ++ "*") k = true ∨
        (normTag b.city ≠ "" ∧
          globMatch ("cache:*city:" ++ normTag (normTag b.city) ++ "*") k
            = true)) →
      getAny (update_ranking_on_new_review st id v).1 k = none := by
  intro k hk
  simp only [update_ranking_on_new_review, hb, invalidate_cache]
  rw [if_neg hid]
  rcases hk with hk | ⟨hc, hk⟩
  · by_cases hc0 : normTag b.city = ""
    · rw [if_pos hc0]
      exact getAny_delMatching _ _ hk
    · rw [if_neg hc0]
      exact getAny_delKeys_none _ _ (getAny_delMatching _ _ hk)
  · rw [if_neg hc]
    exact getAny_delMatching _ _ hk

/-- Frame property of `RedisManager.update_ranking_on_new_review`: beyond
the four keys the update itself writes, only keys matching the two
invalidation globs can change; a key matching neither glob — and every
city-glob key when the stored city tag is empty, since Python's `if city:`
guard then skips the city deletion — keeps its previous value. -/
theorem update_on_new_review_frame (st : RedisState) (id : String) (v : Rat)
    (b : Biz) (hb : hgetBiz st ("business:" ++ id) = some b) {k : String}
    (h1 : k ≠ "business:" ++ id) (h2 : k ≠ "ranking:business:global")
    (h3 : k ≠ "ranking:business:city:" ++ normTag b.city)
    (h4 : k ≠ "ranking:business:popularity")
    (h5 : globMatch ("cache:*" ++ id ++ "*") k = false)
    (h6 : normTag b.city = "" ∨
      globMatch ("cache:*city:" ++ normTag (normTag b.city) ++ "*") k
        = false) :
    getAny (update_ranking_on_new_review st id v).1 k = getAny st k := by
  simp only [update_ranking_on_new_review, hb, invalidate_cache]
  have hcity : ∀ st' : RedisState,
      getAny (if normTag b.city = "" then st'
        else delKeys st' (keysCmd st'
          ("cache:*city:" ++ normTag (normTag b.city) ++ "*"))) k =
        getAny st' k := by
    intro st'
    rcases h6 with h6 | h6
    · rw [if_pos h6]
    · by_cases hc : normTag b.city = ""
      · rw [if_pos hc]
      · rw [if_neg hc]
        exact getAny_delMatching_notmatch _ _ h6
  rw [hcity]
  have hbiz : ∀ st' : RedisState,
      getAny (if id = "" then st'
        else delKeys st' (keysCmd st' ("cache:*" ++ id ++ "*"))) k =
        getAny st' k := by
    intro st'
    by_cases hid0 : id = ""
    · rw [if_pos hid0]
    · rw [if_neg hid0]
      exact getAny_delMatching_notmatch _ _ h5
  rw [hbiz]
  rw [getAny_zadd_ne _ _ _ (Ne.symm h4), getAny_zadd_ne _ _ _ (Ne.symm h3),
    getAny_zadd_ne _ _ _ (Ne.symm h2),
    getAny_hsetStarsCount_ne _ _ _ (Ne.symm h1)]

/-- C6 (corrected): `RedisRankings.update_ranking_on_review` performs no
cache invalidation at all — every cache entry survives it untouched.
Invalidation exists only in `RedisManager.update_ranking_on_new_review`,
guarded by Python truthiness: for a non-empty entity id it deletes the keys
matching `cache:*{id}*` and, when the entity's stored normalised city tag
is non-empty, the keys matching `cache:*city:{city}*`; an empty city tag
skips the city deletion; and beyond the four keys the update itself writes,
keys matching neither glob keep their previous value (cached global top-N
entries survive). -/
theorem cache_invalidation_behaviour :
    (∀ (lg : Nat → Rat) (st : RedisState) (id : String) (v : Rat)
       (k : String), k ≠ "business:" ++ id →
       k ≠ ("business:" ++ id) ++ ":reviews" → k ≠ trendKey →
       getAny (update_ranking_on_review lg st (some id) (some v)).1 k =
         getAny st k)
    ∧ (∀ (st : RedisState) (id : String) (v : Rat) (b : Biz),
        hgetBiz st ("business:" ++ id) = some b → id ≠ "" →
        ∀ k : String,
          (globMatch ("cache:*" ++ id ++ "*") k = true ∨
            (normTag b.city ≠ "" ∧
              globMatch ("cache:*city:" ++ normTag (normTag b.city) ++ "*") k
                = true)) →
          getAny (update_ranking_on_new_review st id v).1 k = none)
    ∧ (∀ (st : RedisState) (id : String) (v : Rat) (b : Biz),
        hgetBiz st ("business:" ++ id) = some b →
        ∀ k : String, k ≠ "business:" ++ id →
          k ≠ "ranking:business:global" →
          k ≠ "ranking:business:city:" ++ normTag b.city →
          k ≠ "ranking:business:popularity" →
          globMatch ("cache:*" ++ id ++ "*") k = false →
          (normTag b.city = "" ∨
            globMatch ("cache:*city:" ++ normTag (normTag b.city) ++ "*") k
              = false) →
          getAny (update_ranking_on_new_review st id v).1 k = getAny st k) := by
  refine ⟨?_, ?_, ?_⟩
  · intro lg st id v k h1 h2 h3
    exact update_review_frame lg st id v h1 h2 h3
  · intro st id v b hb hid k hk
    exact update_on_new_review_invalidates st id v b hb hid k hk
  · intro st id v b hb k h1 h2 h3 h4 h5 h6
    exact update_on_new_review_frame st id v b hb h1 h2 h3 h4 h5 h6

/-- C6 witness: a cache key untouched by `update_ranking_on_review`; a key
matching `cache:*b2*` that `update_ranking_on_new_review` deletes; and a
`cache:city:...` key that survives the update of an entity whose stored
city tag is empty — Python's `if city:` guard skips the city deletion. -/
theorem cache_invalidation_behaviour_witness :
    getAny (update_ranking_on_review (fun _ => 0) RedisState.empty
        (some ("b1")) (some 5)).1 ("cache:x") =
      getAny RedisState.empty ("cache:x")
    ∧ getAny (update_ranking_on_new_review
        { store := [("business:b2",
                     RVal.hash { city := "madrid", stars := 4, review_count := 1 }),
                    ("cache:top_businesses:b2:5", RVal.str (.ok (.num 1)))] }
        ("b2") 5).1 ("cache:top_businesses:b2:5") = none
    ∧ getAny (update_ranking_on_new_review
        { store := [("business:b3",
                     RVal.hash { city := "", stars := 4, review_count := 1 }),
                    ("cache:city:madrid:1", RVal.str (.ok (.num 1)))] }
        ("b3") 5).1 ("cache:city:madrid:1") =
      getAny
        { store := [("business:b3",
                     RVal.hash { city := "", stars := 4, review_count := 1 }),
                    ("cache:city:madrid:1", RVal.str (.ok (.num 1)))] }
        ("cache:city:madrid:1") :=
  ⟨cache_invalidation_behaviour.1 (fun _ => 0) RedisState.empty "b1" 5
      ("cache:x") (by decide) (by decide) (by decide),
   cache_invalidation_behaviour.2.1
      { store := [("business:b2",
                   RVal.hash { city := "madrid", stars := 4, review_count := 1 }),
                  ("cache:top_businesses:b2:5", RVal.str (.ok (.num 1)))] }
      "b2" 5 { city := "madrid", stars := 4, review_count := 1 } (by decide)
      (by decide) ("cache:top_businesses:b2:5")
      (Or.inl (by simp [globMatch, globChars])),
   cache_invalidation_behaviour.2.2
      { store := [("business:b3",
                   RVal.hash { city := "", stars := 4, review_count := 1 }),
                  ("cache:city:madrid:1", RVal.str (.ok (.num 1)))] }
      "b3" 5 { city := "", stars := 4, review_count := 1 } (by decide)
      ("cache:city:madrid:1") (by decide) (by decide) (by decide) (by decide)
      (by simp [globMatch, globChars]) (Or.inl (by decide))⟩

/-- C6 counterexample: a cached entry whose key references the mutated
entity id (`cache:top_businesses:b1:5`) is still present, unchanged, after
`update_ranking_on_review` for `b1` — the claimed invalidation does not
happen on this path. -/
theorem cache_entry_survives_recordObservation :
    getAny (update_ranking_on_review (fun _ => 0)
        { store := [("cache:top_businesses:b1:5", RVal.str (.ok (.num 1))),
                    ("business:b1", RVal.hash { stars := 4, review_count := 1 })] }
        (some ("b1")) (some 5)).1 ("cache:top_businesses:b1:5") =
      some (RVal.str (.ok (.num 1))) := by
  rw [update_review_frame (fun _ => 0) _ "b1" 5 (by decide) (by decide)
    (by decide)]
  decide

/-- C10: `invalidate_pattern` (and `clear_all`, which is
`invalidate_pattern` with pattern `*`) deletes only keys that begin with the
cache prefix followed by `:`; every key without that prefix — in particular
every entity hash, ranking index and observation log — is untouched. -/
theorem invalidate_pattern_only_cache_keys (pre : String)
    (hp : '*' ∉ pre.data) (st : RedisState) (pat : String) :
    (∀ k ∈ keysCmd st (pre ++ ":" ++ pat), (pre ++ ":").data <+: k.data)
    ∧ (∀ k : String, ¬ (pre ++ ":").data <+: k.data →
        getAny (invalidate_pattern pre st pat).1 k = getAny st k)
    ∧ clear_all pre st = invalidate_pattern pre st ("*") := by
  have hp' : '*' ∉ (pre ++ (":" : String)).data := by
    rw [String.data_append]
    intro hmem
    rcases List.mem_append.mp hmem with h | h
    · exact hp h
    · exact absurd h (by decide)
  refine ⟨?_, ?_, rfl⟩
  · intro k hk
    simp only [keysCmd, List.mem_filter] at hk
    exact globMatch_lit_startsWith hp' hk.2
  · intro k hk
    have hnot : k ∉ keysCmd st (pre ++ ":" ++ pat) := by
      intro hmem
      simp only [keysCmd, List.mem_filter] at hmem
      exact hk (globMatch_lit_startsWith hp' hmem.2)
    exact kvGet_kvDel_not_mem _ _ hnot

/-- C10 witness: `clear_all` on a store holding one cache entry, one entity
hash, one ranking index and one observation log leaves the latter three
untouched. -/
theorem invalidate_pattern_only_cache_keys_witness :
    getAny (invalidate_pattern ("cache")
        { store := [("cache:top_businesses:global:5", RVal.str (.ok (.num 1))),
                    ("business:b1", RVal.hash { stars := 4 }),
                    ("ranking:business:global", RVal.zset [("b1", 5)]),
                    ("business:b1:reviews", RVal.list [5])] } ("*")).1
        ("business:b1") = some (RVal.hash { stars := 4 })
    ∧ getAny (invalidate_pattern ("cache")
        { store := [("cache:top_businesses:global:5", RVal.str (.ok (.num 1))),
                    ("business:b1", RVal.hash { stars := 4 }),
                    ("ranking:business:global", RVal.zset [("b1", 5)]),
                    ("business:b1:reviews", RVal.list [5])] } ("*")).1
        ("ranking:business:global") = some (RVal.zset [("b1", 5)])
    ∧ getAny (invalidate_pattern ("cache")
        { store := [("cache:top_businesses:global:5", RVal.str (.ok (.num 1))),
                    ("business:b1", RVal.hash { stars := 4 }),
                    ("ranking:business:global", RVal.zset [("b1", 5)]),
                    ("business:b1:reviews", RVal.list [5])] } ("*")).1
        ("business:b1:reviews") = some (RVal.list [5]) := by
  refine ⟨?_, ?_, ?_⟩
  · rw [(invalidate_pattern_only_cache_keys ("cache") (by decide) _ ("*")).2.1
      _ (by decide)]
    decide
  · rw [(invalidate_pattern_only_cache_keys ("cache") (by decide) _ ("*")).2.1
      _ (by decide)]
    decide
  · rw [(invalidate_pattern_only_cache_keys ("cache") (by decide) _ ("*")).2.1
      _ (by decide)]
    decide

theorem cache_result_of_absent (pre fname : String) (ttl : Nat) {α : Type}
    (f : α → Json) (argKey : α → String) (sz : Json → Nat) (st : RedisState)
    (a : α) (h0 : getStr st (cacheKeyOf pre fname (argKey a)) = none) :
    cache_result pre fname ttl f argKey sz st a =
      (record_cache_miss pre (cacheKeyOf pre fname (argKey a)) (sz (f a))
        (setex st (cacheKeyOf pre fname (argKey a)) ttl (.ok (f a))),
       f a, true) := by
  simp only [cache_result, h0]

theorem cache_result_of_ok (pre fname : String) (ttl : Nat) {α : Type}
    (f : α → Json) (argKey : α → String) (sz : Json → Nat) (st : RedisState)
    (a : α) (v : Json)
    (h0 : getStr st (cacheKeyOf pre fname (argKey a)) = some (.ok v)) :
    cache_result pre fname ttl f argKey sz st a =
      (record_cache_hit pre (cacheKeyOf pre fname (argKey a)) st, v, false) := by
  simp only [cache_result, h0, decodePayload]

theorem cache_result_of_corrupt (pre fname : String) (ttl : Nat) {α : Type}
    (f : α → Json) (argKey : α → String) (sz : Json → Nat) (st : RedisState)
    (a : α) (s : String)
    (h0 : getStr st (cacheKeyOf pre fname (argKey a)) = some (.corrupt s)) :
    cache_result pre fname ttl f argKey sz st a =
      (record_cache_miss pre (cacheKeyOf pre fname (argKey a)) (sz (f a))
        (setex (record_cache_hit pre (cacheKeyOf pre fname (argKey a)) st)
          (cacheKeyOf pre fname (argKey a)) ttl (.ok (f a))),
       f a, true) := by
  simp only [cache_result, h0, decodePayload]

theorem getStr_record_cache_miss (pre cache_key : String) (data_size : Nat)
    (st : RedisState) {k : String} (h1 : missesKey pre ≠ k)
    (h2 : dataSizeKey pre ≠ k)
    (h3 : missesTypeKey pre (cacheTypeOf cache_key) ≠ k) :
    getStr (record_cache_miss pre cache_key data_size st) k = getStr st k := by
  unfold record_cache_miss
  rw [getStr_incrBy_ne _ _ h3, getStr_incrBy_ne _ _ h2, getStr_incrBy_ne _ _ h1]

theorem counterOf_record_cache_miss (pre cache_key : String)
    (data_size : Nat) (st : RedisState) {k : String} (h1 : missesKey pre ≠ k)
    (h2 : dataSizeKey pre ≠ k)
    (h3 : missesTypeKey pre (cacheTypeOf cache_key) ≠ k) :
    counterOf (record_cache_miss pre cache_key data_size st) k =
      counterOf st k := by
  unfold record_cache_miss
  rw [counterOf_incrBy_ne _ _ h3, counterOf_incrBy_ne _ _ h2,
    counterOf_incrBy_ne _ _ h1]

theorem counterOf_record_cache_hit (pre cache_key : String)
    (st : RedisState) {k : String} (h1 : hitsKey pre ≠ k)
    (h2 : hitsTypeKey pre (cacheTypeOf cache_key) ≠ k) :
    counterOf (record_cache_hit pre cache_key st) k = counterOf st k := by
  unfold record_cache_hit
  rw [counterOf_incrBy_ne _ _ h2, counterOf_incrBy_ne _ _ h1]

theorem cacheMisses_record_cache_miss (pre cache_key : String)
    (data_size : Nat) (st : RedisState) :
    cacheMisses pre (record_cache_miss pre cache_key data_size st) =
      cacheMisses pre st + 1 := by
  unfold cacheMisses record_cache_miss
  rw [counterOf_incrBy_ne _ _ (missesTypeKey_ne_missesKey pre _),
    counterOf_incrBy_ne _ _ ((missesKey_ne_dataSizeKey pre).symm),
    counterOf_incrBy_self]

theorem cacheDataSize_record_cache_miss (pre cache_key : String)
    (data_size : Nat) (st : RedisState) :
    cacheDataSize pre (record_cache_miss pre cache_key data_size st) =
      cacheDataSize pre st + (data_size : Rat) := by
  unfold cacheDataSize record_cache_miss
  rw [counterOf_incrBy_ne _ _ (missesTypeKey_ne_dataSizeKey pre _),
    counterOf_incrBy_self,
    counterOf_incrBy_ne _ _ (missesKey_ne_dataSizeKey pre)]

theorem cacheHits_record_cache_miss (pre cache_key : String)
    (data_size : Nat) (st : RedisState) :
    cacheHits pre (record_cache_miss pre cache_key data_size st) =
      cacheHits pre st := by
  unfold cacheHits record_cache_miss
  rw [counterOf_incrBy_ne _ _ (missesTypeKey_ne_hitsKey pre _),
    counterOf_incrBy_ne _ _ ((hitsKey_ne_dataSizeKey pre).symm),
    counterOf_incrBy_ne _ _ ((hitsKey_ne_missesKey pre).symm)]

theorem cacheHits_record_cache_hit (pre cache_key : String)
    (st : RedisState) :
    cacheHits pre (record_cache_hit pre cache_key st) =
      cacheHits pre st + 1 := by
  unfold cacheHits record_cache_hit
  rw [counterOf_incrBy_ne _ _ (hitsTypeKey_ne_hitsKey pre _),
    counterOf_incrBy_self]

theorem cacheMisses_record_cache_hit (pre cache_key : String)
    (st : RedisState) :
    cacheMisses pre (record_cache_hit pre cache_key st) =
      cacheMisses pre st := by
  unfold cacheMisses record_cache_hit
  rw [counterOf_incrBy_ne _ _ (hitsTypeKey_ne_missesKey pre _),
    counterOf_incrBy_ne _ _ (hitsKey_ne_missesKey pre)]

theorem cacheHits_miss_setex (pre ck : String) (ttl : Nat) (p : Payload)
    (ds : Nat) (st : RedisState) (h : ck ≠ hitsKey pre) :
    cacheHits pre (record_cache_miss pre ck ds (setex st ck ttl p)) =
      cacheHits pre st := by
  rw [cacheHits_record_cache_miss]
  unfold cacheHits
  rw [counterOf_setex_ne _ _ _ h]

theorem cacheHits_miss_setex_hit (pre ck : String) (ttl : Nat) (p : Payload)
    (ds : Nat) (st : RedisState) (h : ck ≠ hitsKey pre) :
    cacheHits pre (record_cache_miss pre ck ds
        (setex (record_cache_hit pre ck st) ck ttl p)) =
      cacheHits pre st + 1 := by
  rw [cacheHits_record_cache_miss]
  unfold cacheHits
  rw [counterOf_setex_ne _ _ _ h]
  unfold record_cache_hit
  rw [counterOf_incrBy_ne _ _ (hitsTypeKey_ne_hitsKey pre _),
    counterOf_incrBy_self]

/-- C3: a cached operation called twice in immediate succession on a fresh
key returns the wrapped function's result both times; the first call
executes the function, increments the global miss counter by 1 and adds the
stored byte size, leaving the hit counter alone; the second call does not
execute the function (no recomputation), increments the global hit counter
by 1 and leaves the miss counter alone. -/
theorem cached_call_twice (pre fname : String) (ttl : Nat) {α : Type}
    (f : α → Json) (argKey : α → String) (sz : Json → Nat) (st : RedisState)
    (a : α)
    (h0 : getStr st (cacheKeyOf pre fname (argKey a)) = none)
    (hk : cacheKeyOf pre fname (argKey a) ∉
      statsKeys pre (cacheTypeOf (cacheKeyOf pre fname (argKey a)))) :
    (cache_result pre fname ttl f argKey sz st a).2.1 = f a
    ∧ (cache_result pre fname ttl f argKey sz st a).2.2 = true
    ∧ cacheMisses pre (cache_result pre fname ttl f argKey sz st a).1 =
        cacheMisses pre st + 1
    ∧ cacheHits pre (cache_result pre fname ttl f argKey sz st a).1 =
        cacheHits pre st
    ∧ cacheDataSize pre (cache_result pre fname ttl f argKey sz st a).1 =
        cacheDataSize pre st + (sz (f a) : Rat)
    ∧ (cache_result pre fname ttl f argKey sz
        (cache_result pre fname ttl f argKey sz st a).1 a).2.1 = f a
    ∧ (cache_result pre fname ttl f argKey sz
        (cache_result pre fname ttl f argKey sz st a).1 a).2.2 = false
    ∧ cacheHits pre (cache_result pre fname ttl f argKey sz
        (cache_result pre fname ttl f argKey sz st a).1 a).1 =
        cacheHits pre (cache_result pre fname ttl f argKey sz st a).1 + 1
    ∧ cacheMisses pre (cache_result pre fname ttl f argKey sz
        (cache_result pre fname ttl f argKey sz st a).1 a).1 =
        cacheMisses pre (cache_result pre fname ttl f argKey sz st a).1 := by
  simp only [statsKeys, List.mem_cons, List.not_mem_nil, or_false,
    not_or] at hk
  obtain ⟨ne1, ne2, ne3, ne4, ne5⟩ := hk
  have e1 := cache_result_of_absent pre fname ttl f argKey sz st a h0
  have hstr : getStr (cache_result pre fname ttl f argKey sz st a).1
      (cacheKeyOf pre fname (argKey a)) = some (.ok (f a)) := by
    rw [e1]
    rw [getStr_record_cache_miss _ _ _ _ (Ne.symm ne3) (Ne.symm ne4)
      (Ne.symm ne5), getStr_setex_self]
  have e2 := cache_result_of_ok pre fname ttl f argKey sz _ a (f a) hstr
  refine ⟨by rw [e1], by rw [e1], ?_, ?_, ?_, by rw [e2], by rw [e2], ?_, ?_⟩
  · rw [e1, cacheMisses_record_cache_miss]
    unfold cacheMisses
    rw [counterOf_setex_ne _ _ _ ne3]
  · rw [e1, cacheHits_miss_setex _ _ _ _ _ _ ne1]
  · rw [e1, cacheDataSize_record_cache_miss]
    unfold cacheDataSize
    rw [counterOf_setex_ne _ _ _ ne4]
  · rw [e2, cacheHits_record_cache_hit]
  · rw [e2, cacheMisses_record_cache_hit]

/-- C3 witness: two successive calls on the empty store with a concrete
wrapped function. -/
theorem cached_call_twice_witness :
    (cache_result ("cache") ("topn") 300 (fun _ : Nat => Json.num 3)
        (fun _ => ("h")) (fun _ => 5) RedisState.empty 7).2.2 = true
    ∧ (cache_result ("cache") ("topn") 300 (fun _ : Nat => Json.num 3)
        (fun _ => ("h")) (fun _ => 5)
        (cache_result ("cache") ("topn") 300 (fun _ : Nat => Json.num 3)
          (fun _ => ("h")) (fun _ => 5) RedisState.empty 7).1 7).2.2 =
      false := by
  have h := cached_call_twice ("cache") ("topn") 300 (fun _ : Nat => Json.num 3)
    (fun _ => ("h")) (fun _ => 5) RedisState.empty 7 (by decide) (by decide)
  exact ⟨h.2.1, h.2.2.2.2.2.2.1⟩

/-- C4 (corrected): a corrupted cache entry never surfaces an error — the
wrapped function is executed, its result returned and re-stored, and the
miss statistics advance exactly as for an absent entry — but the outcome is
NOT identical to the entry having been absent: a cache hit is recorded
(global and per-namespace hit counters incremented) before decoding is
attempted. -/
theorem corrupted_cache_entry_recovered (pre fname : String) (ttl : Nat)
    {α : Type} (f : α → Json) (argKey : α → String) (sz : Json → Nat)
    (st : RedisState) (a : α) (s : String)
    (h0 : getStr st (cacheKeyOf pre fname (argKey a)) = some (.corrupt s))
    (hk : cacheKeyOf pre fname (argKey a) ∉
      statsKeys pre (cacheTypeOf (cacheKeyOf pre fname (argKey a)))) :
    (cache_result pre fname ttl f argKey sz st a).2.1 = f a
    ∧ (cache_result pre fname ttl f argKey sz st a).2.2 = true
    ∧ getStr (cache_result pre fname ttl f argKey sz st a).1
        (cacheKeyOf pre fname (argKey a)) = some (.ok (f a))
    ∧ cacheMisses pre (cache_result pre fname ttl f argKey sz st a).1 =
        cacheMisses pre st + 1
    ∧ cacheDataSize pre (cache_result pre fname ttl f argKey sz st a).1 =
        cacheDataSize pre st + (sz (f a) : Rat)
    ∧ cacheHits pre (cache_result pre fname ttl f argKey sz st a).1 =
        cacheHits pre st + 1 := by
  simp only [statsKeys, List.mem_cons, List.not_mem_nil, or_false,
    not_or] at hk
  obtain ⟨ne1, ne2, ne3, ne4, ne5⟩ := hk
  have e := cache_result_of_corrupt pre fname ttl f argKey sz st a s h0
  refine ⟨by rw [e], by rw [e], ?_, ?_, ?_, ?_⟩
  · rw [e]
    rw [getStr_record_cache_miss _ _ _ _ (Ne.symm ne3) (Ne.symm ne4)
      (Ne.symm ne5), getStr_setex_self]
  · rw [e, cacheMisses_record_cache_miss]
    unfold cacheMisses
    rw [counterOf_setex_ne _ _ _ ne3,
      counterOf_record_cache_hit _ _ _ (hitsKey_ne_missesKey pre)
        (hitsTypeKey_ne_missesKey pre _)]
  · rw [e, cacheDataSize_record_cache_miss]
    unfold cacheDataSize
    rw [counterOf_setex_ne _ _ _ ne4,
      counterOf_record_cache_hit _ _ _ (hitsKey_ne_dataSizeKey pre)
        (hitsTypeKey_ne_dataSizeKey pre _)]
  · rw [e, cacheHits_miss_setex_hit _ _ _ _ _ _ ne1]

/-- C4 witness: a corrupted entry for a concrete wrapped function is
recovered (result computed, entry re-stored) with the hit counter bumped. -/
theorem corrupted_cache_entry_recovered_witness :
    (cache_result ("cache") ("topn") 300 (fun _ : Nat => Json.num 3)
        (fun _ => ("h")) (fun _ => 5)
        { store := [("cache:topn:h", RVal.str (.corrupt ("xx")))] } 7).2.1 =
      Json.num 3
    ∧ getStr (cache_result ("cache") ("topn") 300 (fun _ : Nat => Json.num 3)
        (fun _ => ("h")) (fun _ => 5)
        { store := [("cache:topn:h", RVal.str (.corrupt ("xx")))] } 7).1
        (cacheKeyOf ("cache") ("topn") ("h")) = some (.ok (Json.num 3)) := by
  have h := corrupted_cache_entry_recovered ("cache") ("topn") 300
    (fun _ : Nat => Json.num 3) (fun _ => ("h")) (fun _ => 5)
    { store := [("cache:topn:h", RVal.str (.corrupt ("xx")))] } 7 ("xx")
    (by decide) (by decide)
  exact ⟨h.1, h.2.2.1⟩

/-- C4 counterexample: the hit counter distinguishes the corrupted-entry
call from the absent-entry call on otherwise identical stores, so the
outcome is not identical to the entry having been absent. -/
theorem corrupted_not_identical_to_absent :
    cacheHits ("cache") (cache_result ("cache") ("topn") 300
        (fun _ : Nat => Json.num 3) (fun _ => ("h")) (fun _ => 5)
        { store := [("cache:topn:h", RVal.str (.corrupt ("xx")))] } 7).1 ≠
    cacheHits ("cache") (cache_result ("cache") ("topn") 300
        (fun _ : Nat => Json.num 3) (fun _ => ("h")) (fun _ => 5)
        RedisState.empty 7).1 := by
  have hc := cache_result_of_corrupt ("cache") ("topn") 300
    (fun _ : Nat => Json.num 3) (fun _ => ("h")) (fun _ => 5)
    { store := [("cache:topn:h", RVal.str (.corrupt ("xx")))] } 7 ("xx")
    (by decide)
  have ha := cache_result_of_absent ("cache") ("topn") 300
    (fun _ : Nat => Json.num 3) (fun _ => ("h")) (fun _ => 5)
    RedisState.empty 7 (by decide)
  rw [hc, ha,
    cacheHits_miss_setex_hit _ _ _ _ _ _ (by decide),
    cacheHits_miss_setex _ _ _ _ _ _ (by decide)]
  have h1 : cacheHits ("cache")
      { store := [("cache:topn:h", RVal.str (.corrupt ("xx")))] } = 0 := by
    decide
  have h2 : cacheHits ("cache") RedisState.empty = 0 := by decide
  rw [h1, h2]
  norm_num

/-- C8 (corrected): `get_rank_position` returns the 1-based rank for a
member of the index, and `None` when the entity is absent from the index —
but an empty index is NOT distinguished: it also yields plain `None`
(`zrevrank` of a missing key), never a `NotFound` failure.  For the unique
top-scored member of any index the result is `some 1`. -/
theorem rank_position_spec (st : RedisState) (rt : String)
    (loc : Option String) (id : String) :
    (zscore st (rankKeyOf rt loc) id = none →
      get_rank_position st id rt loc = none)
    ∧ (zscore st (rankKeyOf rt loc) id ≠ none →
      (get_rank_position st id rt loc).isSome = true)
    ∧ (∀ s : Rat,
        ((zsetOf st (rankKeyOf rt loc)).map Prod.fst).Nodup →
        (id, s) ∈ zsetOf st (rankKeyOf rt loc) →
        (∀ p ∈ zsetOf st (rankKeyOf rt loc), p.1 ≠ id → p.2 < s) →
        get_rank_position st id rt loc = some 1) := by
  refine ⟨?_, ?_, ?_⟩
  · intro h
    have hall : ∀ p ∈ zsetOf st (rankKeyOf rt loc), p.1 ≠ id :=
      (kvGet_eq_none_iff _ _).mp h
    have hall' : ∀ p ∈ zrevList st (rankKeyOf rt loc), p.1 ≠ id := by
      intro p hp
      exact hall p ((List.mem_insertionSort zRevLe).mp hp)
    simp only [get_rank_position, zrevrank]
    rw [(idxOfKey_eq_none_iff _ _).mpr hall']
    rfl
  · intro h
    obtain ⟨s, hs⟩ := Option.ne_none_iff_exists'.mp h
    have hmem : (id, s) ∈ zrevList st (rankKeyOf rt loc) :=
      (List.mem_insertionSort zRevLe).mpr (kvGet_some_mem hs)
    simp only [get_rank_position, zrevrank]
    rw [Option.isSome_map']
    rw [Option.isSome_iff_ne_none]
    intro hnone
    exact (idxOfKey_eq_none_iff _ _).mp hnone _ hmem rfl
  · intro s hnd hmem hmax
    have hm : (id, s) ∈ zrevList st (rankKeyOf rt loc) :=
      (List.mem_insertionSort zRevLe).mpr hmem
    have hs : (zrevList st (rankKeyOf rt loc)).Pairwise zRevLe :=
      List.sorted_insertionSort zRevLe _
    simp only [get_rank_position, zrevrank]
    cases hL : zrevList st (rankKeyOf rt loc) with
    | nil => rw [hL] at hm; simp at hm
    | cons hd t =>
      rw [hL] at hm hs
      have hhd : hd = (id, s) := by
        by_contra hne
        have hdmem : hd ∈ zsetOf st (rankKeyOf rt loc) := by
          have hmem2 : hd ∈ zrevList st (rankKeyOf rt loc) := by
            rw [hL]; exact List.mem_cons_self _ _
          exact (List.mem_insertionSort zRevLe).mp hmem2
        by_cases hid : hd.1 = id
        · have heta : ((id, hd.2) : String × Rat) ∈
              zsetOf st (rankKeyOf rt loc) := by
            rw [← hid]; exact hdmem
          have hsnd : hd.2 = s := nodup_fst_eq hnd heta hmem
          exact hne (Prod.ext hid hsnd)
        · have hlt : hd.2 < s := hmax hd hdmem hid
          have hxt : (id, s) ∈ t := by
            rcases List.mem_cons.mp hm with he | he
            · exact absurd he.symm hne
            · exact he
          have hrel : zRevLe hd (id, s) :=
            (List.pairwise_cons.mp hs).1 _ hxt
          rcases hrel with hr | hr
          · exact absurd (hr.trans hlt) (lt_irrefl _)
          · have hseq : s = hd.2 := hr.1
            exact absurd hlt (by rw [hseq]; exact lt_irrefl _)
      simp only [idxOfKey]
      rw [if_pos (by rw [hhd])]
      rfl

/-- C8 witness: in a two-member index the strictly top-scored member has
rank 1. -/
theorem rank_position_spec_witness :
    get_rank_position
      { store := [("ranking:business:global",
                   RVal.zset [("low", 4), ("top", 9)])] }
      ("top") ("global") none = some 1 :=
  (rank_position_spec
    { store := [("ranking:business:global",
                 RVal.zset [("low", 4), ("top", 9)])] }
    ("global") none ("top")).2.2 9 (by decide) (by decide) (by decide)

/-- C8 counterexample: on an index with zero members the call evaluates to
plain `None` — exactly the same "not present" value returned for an entity
absent from a non-empty index — not to a `NotFound` failure (the function
has no failure outcome at all). -/
theorem rank_position_empty_not_error :
    get_rank_position RedisState.empty ("b1") ("global") none = none
    ∧ get_rank_position
        { store := [("ranking:business:global", RVal.zset [("a", 5)])] }
        ("b1") ("global") none = none := by
  constructor
  · decide
  · decide

theorem zscore_expireCmd (st : RedisState) (k : String) (t : Nat)
    (k' m : String) : zscore (expireCmd st k t) k' m = zscore st k' m := rfl

theorem expireCalls_zincrby (st : RedisState) (k : String) (d : Rat)
    (m : String) : (zincrby st k d m).expireCalls = st.expireCalls := rfl

theorem update_trending_no_ttl (st : RedisState) (id : String)
    (ht : kvGet st.ttls trendKey = none) :
    update_trending st id =
      expireCmd (zincrby st trendKey 1 id) trendKey 3600 := by
  have hs : kvGet (zincrby st trendKey 1 id).store trendKey =
      some (.zset (kvSet (zsetOf st trendKey) id
        ((zscore st trendKey id).getD 0 + 1))) := by
    simp [zincrby, zadd, kvGet_kvSet_self]
  have httl : kvGet (zincrby st trendKey 1 id).ttls trendKey = none := by
    rw [ttls_zincrby]; exact ht
  have hcmd : ttlCmd (zincrby st trendKey 1 id) trendKey = -1 := by
    simp only [ttlCmd, hs, httl]
  unfold update_trending
  rw [if_pos hcmd]

theorem update_trending_with_ttl (st : RedisState) (id : String) (t : Nat)
    (ht : kvGet st.ttls trendKey = some t) :
    update_trending st id = zincrby st trendKey 1 id := by
  have hs : kvGet (zincrby st trendKey 1 id).store trendKey =
      some (.zset (kvSet (zsetOf st trendKey) id
        ((zscore st trendKey id).getD 0 + 1))) := by
    simp [zincrby, zadd, kvGet_kvSet_self]
  have httl : kvGet (zincrby st trendKey 1 id).ttls trendKey = some t := by
    rw [ttls_zincrby]; exact ht
  have hcmd : ttlCmd (zincrby st trendKey 1 id) trendKey = (t : Int) := by
    simp only [ttlCmd, hs, httl]
  unfold update_trending
  rw [if_neg (by rw [hcmd]; omega)]

theorem iterTrend_spec (st : RedisState) (id : String)
    (h0 : getAny st trendKey = none) (ht : kvGet st.ttls trendKey = none) :
    ∀ k : Nat, 1 ≤ k →
      kvGet (iterTrend st id k).ttls trendKey = some 3600
      ∧ (iterTrend st id k).expireCalls = st.expireCalls + 1
      ∧ zscore (iterTrend st id k) trendKey id = some ((k : Nat) : Rat)
      ∧ getAny (iterTrend st id k) trendKey ≠ none := by
  intro k
  induction k with
  | zero => intro h; omega
  | succ n ih =>
    intro _
    by_cases hn : 1 ≤ n
    · obtain ⟨i1, i2, i3, _⟩ := ih hn
      have hstep : iterTrend st id (n + 1) =
          zincrby (iterTrend st id n) trendKey 1 id := by
        simp only [iterTrend]
        exact update_trending_with_ttl _ id 3600 i1
      refine ⟨?_, ?_, ?_, ?_⟩
      · rw [hstep, ttls_zincrby]; exact i1
      · rw [hstep, expireCalls_zincrby]; exact i2
      · rw [hstep, zscore_zincrby_self, i3]
        simp only [Option.getD_some]
        norm_num
      · rw [hstep]
        simp [zincrby, zadd, getAny, kvGet_kvSet_self]
    · have hn0 : n = 0 := by omega
      subst hn0
      have hstep : iterTrend st id 1 =
          expireCmd (zincrby st trendKey 1 id) trendKey 3600 := by
        simp only [iterTrend]
        exact update_trending_no_ttl st id ht
      have hz : zscore st trendKey id = none := by
        unfold zscore zsetOf
        rw [show kvGet st.store trendKey = none from h0]
        rfl
      refine ⟨?_, ?_, ?_, ?_⟩
      · rw [hstep]
        simp [expireCmd, kvGet_kvSet_self]
      · rw [hstep]
        simp [expireCmd, expireCalls_zincrby]
      · rw [hstep, zscore_expireCmd, zscore_zincrby_self, hz]
        norm_num
      · rw [hstep]
        simp [expireCmd, getAny, zincrby, zadd, kvGet_kvSet_self]

theorem trending_sorted_aux (st : RedisState) (limit : Nat) :
    (get_trending_businesses st limit).Pairwise
      (fun e₁ e₂ => e₂.trend_score ≤ e₁.trend_score) := by
  have hp : (zrevrangeWS st trendKey limit).Pairwise zRevLe := by
    unfold zrevrangeWS
    by_cases h : limit = 0
    · rw [if_pos h]
      exact List.sorted_insertionSort zRevLe _
    · rw [if_neg h]
      exact (List.sorted_insertionSort zRevLe _).sublist
        (List.take_sublist _ _)
  unfold get_trending_businesses
  refine pairwise_filterMap_of _ ?_ hp
  intro a b hr c d hgc hgd
  simp only at hgc hgd
  cases hA : hgetBiz st ("business:" ++ a.1) with
  | none => rw [hA] at hgc; exact absurd hgc (by simp)
  | some ba =>
    cases hB : hgetBiz st ("business:" ++ b.1) with
    | none => rw [hB] at hgd; exact absurd hgd (by simp)
    | some bb =>
      rw [hA, Option.some_inj] at hgc
      rw [hB, Option.some_inj] at hgd
      subst hgc
      subst hgd
      show truncInt b.2 ≤ truncInt a.2
      apply truncInt_mono
      rcases hr with hr | hr
      · exact le_of_lt hr
      · exact le_of_eq hr.1

/-- C9: within one trending window the TTL is set exactly once — by the
first increment, to 3600 seconds — and never set again by later increments;
incrementing the same entity `k` times yields trending score `k`; and
`get_trending_businesses` returns entities in descending count order. -/
theorem trending_window_behaviour :
    (∀ (st : RedisState) (id : String) (k : Nat), 1 ≤ k →
      getAny st trendKey = none → kvGet st.ttls trendKey = none →
      kvGet (iterTrend st id k).ttls trendKey = some 3600
      ∧ (iterTrend st id k).expireCalls = st.expireCalls + 1
      ∧ zscore (iterTrend st id k) trendKey id = some ((k : Nat) : Rat))
    ∧ (∀ (st : RedisState) (limit : Nat),
        (get_trending_businesses st limit).Pairwise
          (fun e₁ e₂ => e₂.trend_score ≤ e₁.trend_score)) := by
  constructor
  · intro st id k hk h0 ht
    obtain ⟨i1, i2, i3, _⟩ := iterTrend_spec st id h0 ht k hk
    exact ⟨i1, i2, i3⟩
  · exact trending_sorted_aux

/-- C9 witness: three increments for the same id on the empty store set the
TTL once (one EXPIRE call, TTL 3600) and produce trending score 3. -/
theorem trending_window_behaviour_witness :
    kvGet (iterTrend RedisState.empty ("b1") 3).ttls trendKey = some 3600
    ∧ (iterTrend RedisState.empty ("b1") 3).expireCalls = 0 + 1
    ∧ zscore (iterTrend RedisState.empty ("b1") 3) trendKey ("b1") =
      some ((3 : Nat) : Rat) := by
  have h := trending_window_behaviour.1 RedisState.empty ("b1") 3
    (by norm_num) (by decide) (by decide)
  exact ⟨h.1, h.2.1, h.2.2⟩

/-- C7 (corrected): `get_top_businesses` returns at most `n` entries in
descending score order, but ties between equal scores are broken by
DESCENDING entity id (Redis ZREVRANGE reverses the ascending lexicographic
tie order of the sorted set), not ascending as claimed; each returned entry
carries the entity's current stored hash and its (id, score) pair is a
member of the queried index; entities without a stored hash are skipped. -/
theorem topN_ordering (st : RedisState) (rt : String) (loc : Option String)
    (n : Nat) (hn : 1 ≤ n) :
    (get_top_businesses st rt loc n true).length ≤ n
    ∧ (get_top_businesses st rt loc n true).Pairwise
        (fun e₁ e₂ => e₂.tscore < e₁.tscore ∨
          (e₂.tscore = e₁.tscore ∧
            strLe e₂.tbusiness_id e₁.tbusiness_id = true))
    ∧ ∀ e ∈ get_top_businesses st rt loc n true,
        hgetBiz st ("business:" ++ e.tbusiness_id) = some e.tbiz
        ∧ (e.tbusiness_id, e.tscore) ∈ zsetOf st (rankKeyOf rt loc) := by
  have hres : zrevrangeWS st (rankKeyOf rt loc) n =
      (zrevList st (rankKeyOf rt loc)).take n := by
    unfold zrevrangeWS
    rw [if_neg (by omega)]
  have hp : (zrevrangeWS st (rankKeyOf rt loc) n).Pairwise zRevLe := by
    rw [hres]
    exact (List.sorted_insertionSort zRevLe _).sublist (List.take_sublist _ _)
  refine ⟨?_, ?_, ?_⟩
  · simp only [get_top_businesses]
    apply le_trans (List.length_filterMap_le _ _)
    rw [hres]
    exact List.length_take_le _ _
  · simp only [get_top_businesses]
    refine pairwise_filterMap_of _ ?_ hp
    intro a b hr c d hgc hgd
    simp only [if_true] at hgc hgd
    cases hA : hgetBiz st ("business:" ++ a.1) with
    | none => rw [hA] at hgc; exact absurd hgc (by simp)
    | some ba =>
      cases hB : hgetBiz st ("business:" ++ b.1) with
      | none => rw [hB] at hgd; exact absurd hgd (by simp)
      | some bb =>
        rw [hA, Option.some_inj] at hgc
        rw [hB, Option.some_inj] at hgd
        subst hgc
        subst hgd
        simpa using hr
  · intro e he
    simp only [get_top_businesses] at he
    obtain ⟨x, hx, hgx⟩ := List.mem_filterMap.mp he
    simp only [if_true] at hgx
    cases hB : hgetBiz st ("business:" ++ x.1) with
    | none => rw [hB] at hgx; exact absurd hgx (by simp)
    | some bx =>
      rw [hB, Option.some_inj] at hgx
      subst hgx
      refine ⟨by simpa using hB, ?_⟩
      have hxz : x ∈ zsetOf st (rankKeyOf rt loc) := by
        have h1 : x ∈ zrevList st (rankKeyOf rt loc) := by
          rw [hres] at hx
          exact List.mem_of_mem_take hx
        exact (List.mem_insertionSort zRevLe).mp h1
      simpa using hxz

/-- C7 witness: the general top-N contract instantiated on a concrete
two-member index with `n = 2`. -/
theorem topN_ordering_witness :
    (get_top_businesses
        { store := [("ranking:business:global", RVal.zset [("a", 5), ("b", 7)]),
                    ("business:a", RVal.hash { name := "A" }),
                    ("business:b", RVal.hash { name := "B" })] }
        ("global") none 2 true).length ≤ 2
    ∧ (get_top_businesses
        { store := [("ranking:business:global", RVal.zset [("a", 5), ("b", 7)]),
                    ("business:a", RVal.hash { name := "A" }),
                    ("business:b", RVal.hash { name := "B" })] }
        ("global") none 2 true).Pairwise
        (fun e₁ e₂ => e₂.tscore < e₁.tscore ∨
          (e₂.tscore = e₁.tscore ∧
            strLe e₂.tbusiness_id e₁.tbusiness_id = true)) := by
  have h := topN_ordering
    { store := [("ranking:business:global", RVal.zset [("a", 5), ("b", 7)]),
                ("business:a", RVal.hash { name := "A" }),
                ("business:b", RVal.hash { name := "B" })] }
    ("global") none 2 (by norm_num)
  exact ⟨h.1, h.2.1⟩

/-- C7 counterexample: two entities with equal score 5 and ids `a`, `b` come
back in order `[b, a]` — descending id — refuting the claimed ascending
lexicographic tie-break. -/
theorem topN_ties_not_ascending :
    (get_top_businesses
        { store := [("ranking:business:global", RVal.zset [("a", 5), ("b", 5)]),
                    ("business:a", RVal.hash { name := "A" }),
                    ("business:b", RVal.hash { name := "B" })] }
        ("global") none 2 true).map (fun e => e.tbusiness_id) = ["b", "a"]
    ∧ (get_top_businesses
        { store := [("ranking:business:global", RVal.zset [("a", 5), ("b", 5)]),
                    ("business:a", RVal.hash { name := "A" }),
                    ("business:b", RVal.hash { name := "B" })] }
        ("global") none 2 true).map (fun e => e.tbusiness_id) ≠
      ["a", "b"] := by
  constructor
  · decide
  · decide
